import Mathlib

/-
Verification of the stratified resampling engine in
src/preprocessing/resampling.py (uncover-ml).

The embedding below translates the two entry points `resample_shapefile`
(value-mode quantile binning followed by per-bin sampling) and
`resample_shapefile_spatially` (regular-grid binning followed by per-cell
sampling), together with their helper `filter_fields`, into executable Lean
definitions.  Numeric attribute values and coordinates are modelled as
rationals; the library calls the source relies on are translated from their
sources as well:

  * numpy `np.unique`          -> `sortedUnique` (sorted list of the distinct
                                  values),
  * numpy `np.linspace`        -> `linspace01` / `linspaceQ`,
  * pandas `algos.quantile`    -> `getScore` / `interpAt` (linear
                                  interpolation over order statistics; the
                                  source feeds it the sorted unique values),
  * pandas `_bins_to_cuts`     -> `binsToCutsVec` for the vectorized call
                                  (the duplicate-bin-edges check raising
                                  ValueError "Bin edges must be unique", then
                                  the `bins[0]` read of the `include_lowest`
                                  override, IndexError on an empty edge
                                  array) and `binsToCuts` for the per-value
                                  labelling (searchsorted-left with the
                                  `include_lowest` override and NaN for
                                  out-of-range values; pandas groupby drops
                                  the NaN labels),
  * pandas `DataFrame.sample`  -> `sampleGroup` (numpy `choice`; the random
                                  source is modelled as an oracle stream
                                  `rng : Nat -> Nat`, mirroring numpy's global
                                  random state, which the source never seeds),
  * shapely `Point.within`     -> `withinRect` (strict interior membership of
                                  an axis-aligned rectangle; the grid cells
                                  built by the source are such rectangles),
  * pandas `sort_index`        -> stable insertion sort on the record index,
  * python exceptions          -> the `Err` inductive; `Except.error` aborts
                                  the call exactly where the python statement
                                  raising the exception executes.

Records carry their original dataframe index, their attribute row and a point
geometry (the claims under verification only exercise point geometries).
-/

set_option maxHeartbeats 1000000

set_option allowUnsafeReducibility true
attribute [semireducible] Rat.add Rat.mul Rat.sub Rat.inv Rat.div Rat.ofScientific

def GEOMETRY : String := "geometry"

/-- Python exceptions that the translated code can raise, together with the
two abstract error kinds named by the specification (`invalidInput`,
`outOfRange`) which the code itself never produces. -/
inductive Err where
  | fieldMissing (f : String)
  | keyError (f : String)
  | negLinspace
  | indexError
  | binEdgesNotUnique
  | zeroDivision
  | emptyChoice
  | insufficientSamples
  | emptyConcat
  | invalidInput
  | outOfRange
deriving DecidableEq, Repr

/-- One row of the GeoDataFrame: original index, attribute columns, point
geometry. -/
structure GeoRecord where
  idx : ℕ
  attrs : List (String × ℚ)
  pt : ℚ × ℚ
deriving DecidableEq, Repr

instance : Inhabited GeoRecord := ⟨⟨0, [], (0, 0)⟩⟩

/-- A GeoDataFrame: its column labels (the geometry column included, as in
geopandas) and its rows. -/
structure GeoFrame where
  cols : List String
  recs : List GeoRecord
deriving DecidableEq, Repr

/-- An axis-aligned rectangular grid cell, `Polygon([(xs,ys),(xs,ye),(xe,ye),(xe,ys)])`
in the source. -/
structure Rect where
  xs : ℚ
  xe : ℚ
  ys : ℚ
  ye : ℚ
deriving DecidableEq, Repr

/-- Result of a resampling call: the output rows and the cells reported empty
via `log.info` while the call ran. -/
structure RunResult where
  recs : List GeoRecord
  emptyBins : List Rect
deriving DecidableEq, Repr

/-- Column lookup `row[field]`; the callers only use it on fields validated to
be present. -/
def getAttr (r : GeoRecord) (f : String) : ℚ :=
  (r.attrs.lookup f).getD 0

/-- `filter_fields`: prepend the geometry column, check every requested field
exists (RuntimeError otherwise) and keep exactly those columns. -/
def filter_fields (fields_to_keep : List String) (gdf : GeoFrame) :
    Except Err GeoFrame :=
  let fields := GEOMETRY :: fields_to_keep
  match fields.find? (fun f => !(gdf.cols.contains f)) with
  | some f => .error (.fieldMissing f)
  | none =>
      .ok { cols := fields,
            recs := gdf.recs.map (fun r =>
              { r with attrs := r.attrs.filter (fun kv => fields.contains kv.1) }) }

/-- Sorted list of the distinct members of `l` (numpy `np.unique`). -/
def sortedUnique {α : Type} [LinearOrder α] (l : List α) : List α :=
  (l.insertionSort (fun a b => a ≤ b)).dedup

/-- Linear interpolation of the sorted vector `v` at fractional position `t`
(the body of pandas `algos.quantile._get_score`, which computes
`values[int(idx)]` when `idx` is integral and interpolates towards
`values[int(idx)+1]` otherwise). -/
def interpAt (v : List ℚ) (t : ℚ) : ℚ :=
  if t - (⌊t⌋ : ℚ) = 0 then v.getD (⌊t⌋).toNat 0
  else v.getD (⌊t⌋).toNat 0 +
    (v.getD ((⌊t⌋).toNat + 1) 0 - v.getD (⌊t⌋).toNat 0) * (t - (⌊t⌋ : ℚ))

/-- pandas `algos.quantile` of a sorted vector at quantile `q`:
`idx = q * (len - 1)` followed by linear interpolation.  On an empty vector
`algos.quantile` returns NaN at every quantile; here the out-of-range reads
fall back to the `getD` default instead, so an empty vector yields the same
constant edge at every quantile.  Either way all `bins + 1` edges of an empty
dataset coincide (pandas `unique` keeps a single NaN), so the duplicate-edge
check of `binsToCutsVec` fires on them identically. -/
def getScore (v : List ℚ) (q : ℚ) : ℚ :=
  interpAt v (q * ((v.length : ℚ) - 1))

/-- numpy `np.linspace(0, 1, num)`. -/
def linspace01 (num : ℕ) : List ℚ :=
  if num = 1 then [0]
  else (List.range num).map (fun (i : ℕ) => (i : ℚ) / ((num : ℚ) - 1))

/-- numpy `np.linspace(a, b, num)` with rational endpoints. -/
def linspaceQ (a b : ℚ) (num : ℕ) : List ℚ :=
  if num = 1 then [a]
  else (List.range num).map (fun (i : ℕ) => a + (i : ℚ) * (b - a) / ((num : ℚ) - 1))

/-- The quantile bin edges of `resample_shapefile`:
`algos.quantile(np.unique(target), np.linspace(0, 1, bins + 1))`. -/
def computeBinEdges (values : List ℚ) (bins : ℕ) : List ℚ :=
  (linspace01 (bins + 1)).map (getScore (sortedUnique values))

/-- pandas `pd.tools.tile._bins_to_cuts(x, bins, labels=False, include_lowest=True)`
for a single value: searchsorted-left insertion index, the `include_lowest`
override for `x == bins[0]`, and `none` (NaN) for out-of-range values. -/
def binsToCuts (edges : List ℚ) (x : ℚ) : Option ℕ :=
  let i0 := edges.countP (fun e => decide (e < x))
  let ids := if edges.head? = some x then 1 else i0
  if ids = 0 ∨ ids = edges.length then none else some (ids - 1)

/-- The vectorized `pd.tools.tile._bins_to_cuts(x, bins, labels=False,
include_lowest=True)` call: after the (error-free) searchsorted it checks
`len(algos.unique(bins)) < len(bins)` and raises
`ValueError("Bin edges must be unique")` on a duplicated edge array; the
`include_lowest` override then reads `bins[0]`, an IndexError when the edge
array is empty; otherwise every value receives its `binsToCuts` label. -/
def binsToCutsVec (edges : List ℚ) (xs : List ℚ) : Except Err (List (Option ℕ)) :=
  if (sortedUnique edges).length < edges.length then .error .binEdgesNotUnique
  else if edges = [] then .error .indexError
  else .ok (xs.map (binsToCuts edges))

/-- `total_samples = output_samples if output_samples else gdf_out.shape[0]`
(note the falsy test: `output_samples=0` also falls back to the input size). -/
def totalSamples (os : Option ℕ) (n : ℕ) : ℕ :=
  match os with
  | none => n
  | some k => if k = 0 then n else k

/-- numpy's without-replacement selection, driven by the oracle stream: pick
an available position, remove it, recurse. -/
def pickSeq (rng : ℕ → ℕ) (off : ℕ) : ℕ → List ℕ → List ℕ
  | 0, _ => []
  | _ + 1, [] => []
  | n + 1, a :: avail =>
      let j := rng off % (a :: avail).length
      (a :: avail).getD j 0 :: pickSeq rng (off + 1) n ((a :: avail).eraseIdx j)

/-- numpy `random_state.choice(m, size=n, replace=replace)`: row positions
drawn from `range m`.  An empty population raises ValueError, and so does a
without-replacement request larger than the population (the condition the
specification names `InsufficientSamplesError`). -/
def npChoice (rng : ℕ → ℕ) (off m n : ℕ) (replace : Bool) :
    Except Err (List ℕ) :=
  if m = 0 ∧ n ≠ 0 then .error .emptyChoice
  else if replace = false ∧ m < n then .error .insufficientSamples
  else if replace then .ok ((List.range n).map (fun i => rng (off + i) % m))
  else .ok (pickSeq rng off n (List.range m))

/-- pandas `gr.sample(n=n, replace=replace)`: draw row positions with
`npChoice` and take those rows of the group. -/
def sampleGroup (rng : ℕ → ℕ) (off : ℕ) (g : List GeoRecord) (n : ℕ)
    (replace : Bool) : Except Err (List GeoRecord) :=
  match npChoice rng off g.length n replace with
  | .error e => .error e
  | .ok locs => .ok (locs.map (fun j => g.getD j default))

/-- The sampling loop of `resample_shapefile`: sample every (non-empty) group
in turn, threading the random stream. -/
def sampleGroups (rng : ℕ → ℕ) (n : ℕ) (replace : Bool) :
    List (List GeoRecord) → ℕ → Except Err (List (List GeoRecord))
  | [], _ => .ok []
  | g :: gs, off =>
      match sampleGroup rng off g n replace with
      | .error e => .error e
      | .ok s =>
          match sampleGroups rng n replace gs (off + n) with
          | .error e => .error e
          | .ok rest => .ok (s :: rest)

/-- Ordering of rows by their original dataframe index (`sort_index`). -/
def recIdxLe (a b : GeoRecord) : Prop := a.idx ≤ b.idx

instance : DecidableRel recIdxLe := fun a b => Nat.decLe a.idx b.idx

instance : IsTotal GeoRecord recIdxLe := ⟨fun a b => Nat.le_total a.idx b.idx⟩

instance : IsTrans GeoRecord recIdxLe := ⟨fun _ _ _ => Nat.le_trans⟩

/-- The target column `gdf_out[target_field]` of the filtered frame. -/
def valueModeTarget (g : GeoFrame) (tf : String) : List ℚ :=
  g.recs.map (fun r => getAttr r tf)

/-- The quantile bin edges computed by `resample_shapefile`:
`algos.quantile(np.unique(target), np.linspace(0, 1, bins + 1))`. -/
def valueModeEdges (g : GeoFrame) (tf : String) (bins : ℤ) : List ℚ :=
  (linspace01 (bins + 1).toNat).map (getScore (sortedUnique (valueModeTarget g tf)))

/-- The distinct non-NaN labels of the `BIN` column, in the sorted order in
which `groupby(BIN)` iterates them. -/
def valueModeLabels (g : GeoFrame) (tf : String) (bins : ℤ) : List ℕ :=
  sortedUnique (g.recs.filterMap
    (fun r => binsToCuts (valueModeEdges g tf bins) (getAttr r tf)))

/-- The groups `gb = gdf_out.groupby(BIN)` iterates over: for each distinct
label, the rows carrying it, in original row order. -/
def valueModeGroups (g : GeoFrame) (tf : String) (bins : ℤ) :
    List (List GeoRecord) :=
  (valueModeLabels g tf bins).map (fun b =>
    g.recs.filter
      (fun r => binsToCuts (valueModeEdges g tf bins) (getAttr r tf) = some b))

/-- `resample_shapefile(input, output, target_field, bins, *fields_to_keep,
replace, output_samples)`.  The `rng` argument models numpy's global random
state, which the source leaves implicit and unseeded. -/
def resample_shapefile (rng : ℕ → ℕ) (gdf : GeoFrame) (target_field : String)
    (bins : ℤ) (fields_to_keep : List String) (replace : Bool)
    (output_samples : Option ℕ) : Except Err RunResult :=
  match filter_fields fields_to_keep gdf with
  | .error e => .error e
  | .ok gdf_out =>
    if target_field ∈ gdf_out.cols then
      if bins + 1 < 0 then .error .negLinspace
      else
        let bin_edges := valueModeEdges gdf_out target_field bins
        match binsToCutsVec bin_edges (valueModeTarget gdf_out target_field) with
        | .error e => .error e
        | .ok _ =>
          let total_samples := totalSamples output_samples gdf_out.recs.length
          if bins = 0 then .error .zeroDivision
          else
            let samples_per_bin := total_samples / bins.toNat
            let groups := valueModeGroups gdf_out target_field bins
            if groups = [] then .error .emptyConcat
            else
              match sampleGroups rng samples_per_bin replace groups 0 with
              | .error e => .error e
              | .ok dfs => .ok ⟨(dfs.flatten).insertionSort recIdxLe, []⟩
    else .error (.keyError target_field)

/-- Strict-interior containment of a point in a rectangle: shapely
`point.within(polygon)` holds exactly when the point lies in the polygon's
interior, so boundary points are contained in no cell. -/
def withinRect (p : ℚ × ℚ) (r : Rect) : Bool :=
  decide (r.xs < p.1) && decide (p.1 < r.xe) &&
  decide (r.ys < p.2) && decide (p.2 < r.ye)

/-- The nested polygon-building loops of `resample_shapefile_spatially`: the
outer loop walks consecutive x-segments, the inner loop consecutive
y-segments. -/
def gridCells (xg yg : List ℚ) : List Rect :=
  (xg.zip xg.tail).flatMap (fun xp =>
    (yg.zip yg.tail).map (fun yp => ⟨xp.1, xp.2, yp.1, yp.2⟩))

/-- The grid of `rows * cols` cells over the bounding box
`[minx,maxx] x [miny,maxy]`. -/
def buildGrid (minx maxx miny maxy : ℚ) (rows cols : ℕ) : List Rect :=
  gridCells (linspaceQ minx maxx (cols + 1)) (linspaceQ miny maxy (rows + 1))

/-- geopandas `total_bounds` of the records: (minx, miny, maxx, maxy). -/
def total_bounds (recs : List GeoRecord) : ℚ × ℚ × ℚ × ℚ :=
  ((recs.map (fun r => r.pt.1)).foldr min ((recs.map (fun r => r.pt.1)).headD 0),
   (recs.map (fun r => r.pt.2)).foldr min ((recs.map (fun r => r.pt.2)).headD 0),
   (recs.map (fun r => r.pt.1)).foldr max ((recs.map (fun r => r.pt.1)).headD 0),
   (recs.map (fun r => r.pt.2)).foldr max ((recs.map (fun r => r.pt.2)).headD 0))

/-- The list `polygons` built by `resample_shapefile_spatially`: the grid over
the dataset's `total_bounds` with `cols + 1` x-points and `rows + 1` y-points. -/
def spatialGridOf (g : GeoFrame) (rows cols : ℤ) : List Rect :=
  gridCells
    (linspaceQ (total_bounds g.recs).1 (total_bounds g.recs).2.2.1 (cols + 1).toNat)
    (linspaceQ (total_bounds g.recs).2.1 (total_bounds g.recs).2.2.2 (rows + 1).toNat)

/-- The per-cell loop of `resample_shapefile_spatially`: a non-empty cell is
sampled, an empty cell is logged (`log.info`) and skipped. -/
def spatialLoop (rng : ℕ → ℕ) (n : ℕ) (replace : Bool) (recs : List GeoRecord) :
    List Rect → ℕ → Except Err (List (List GeoRecord) × List Rect)
  | [], _ => .ok ([], [])
  | p :: ps, off =>
      let df := recs.filter (fun r => withinRect r.pt p)
      if df.isEmpty then
        match spatialLoop rng n replace recs ps off with
        | .error e => .error e
        | .ok (dfs, lg) => .ok (dfs, p :: lg)
      else
        match sampleGroup rng off df n replace with
        | .error e => .error e
        | .ok s =>
            match spatialLoop rng n replace recs ps (off + n) with
            | .error e => .error e
            | .ok (dfs, lg) => .ok (s :: dfs, lg)

/-- `resample_shapefile_spatially(input, output, rows, cols, *fields_to_keep,
replace, output_samples)`. -/
def resample_shapefile_spatially (rng : ℕ → ℕ) (gdf : GeoFrame)
    (rows cols : ℤ) (fields_to_keep : List String) (replace : Bool)
    (output_samples : Option ℕ) : Except Err RunResult :=
  match filter_fields fields_to_keep gdf with
  | .error e => .error e
  | .ok gdf_out =>
    if rows + 1 < 0 ∨ cols + 1 < 0 then .error .negLinspace
    else
      let polygons := spatialGridOf gdf_out rows cols
      let total_samples := totalSamples output_samples gdf_out.recs.length
      if polygons.length = 0 then .error .zeroDivision
      else
        let samples_per_group := total_samples / polygons.length
        match spatialLoop rng samples_per_group replace gdf_out.recs polygons 0 with
        | .error e => .error e
        | .ok (dfs, lg) =>
            if dfs = [] then .error .emptyConcat
            else .ok ⟨dfs.flatten, lg⟩

/- ### Concrete data used to exercise the embedding -/

/-- A deterministic random stream (one possible numpy global state). -/
def rngZero : ℕ → ℕ := fun _ => 0

/-- A second random stream (a different numpy global state). -/
def rngOne : ℕ → ℕ := fun _ => 1

/-- A 3-record shapefile whose target attribute `v` has values [1, 2, 2]:
with `bins = 3` the middle quantile bin is empty. -/
def frameA : GeoFrame :=
  ⟨["geometry", "v"],
   [⟨0, [("v", 1)], (0, 0)⟩, ⟨1, [("v", 2)], (0, 0)⟩, ⟨2, [("v", 2)], (0, 0)⟩]⟩

/-- `filter_fields [] frameA`: only the geometry column is kept. -/
def frameAfilt : GeoFrame :=
  ⟨["geometry"], [⟨0, [], (0, 0)⟩, ⟨1, [], (0, 0)⟩, ⟨2, [], (0, 0)⟩]⟩

/-- The output of `resample_shapefile rngZero frameA "v" 3 ["v"] true none`. -/
def outA : RunResult :=
  ⟨[⟨0, [("v", 1)], (0, 0)⟩, ⟨1, [("v", 2)], (0, 0)⟩], []⟩

/-- The attribute values of the 40-record dataset of the quota-floor scenario:
four value groups of ten records each. -/
def valsB : List ℚ :=
  List.replicate 10 (1 : ℚ) ++ List.replicate 10 (2 : ℚ) ++
  List.replicate 10 (3 : ℚ) ++ List.replicate 10 (4 : ℚ)

/-- A 40-record shapefile with 4 equal-size quantile bins of 10 records. -/
def frameB : GeoFrame :=
  ⟨["geometry", "v"],
   (List.range 40).map (fun i => ⟨i, [("v", valsB.getD i 0)], (0, 0)⟩)⟩

/-- A 3-record shapefile whose target attribute `v` is constantly 5: a single
unique value collapses every quantile edge onto 5. -/
def frameD : GeoFrame :=
  ⟨["geometry", "v"],
   [⟨0, [("v", 5)], (0, 0)⟩, ⟨1, [("v", 5)], (0, 0)⟩, ⟨2, [("v", 5)], (0, 0)⟩]⟩

/-- A 4-record point dataset with bounding box [0,10] x [0,10]; the corner
records sit on the bounding-box boundary and the two interior records fall in
cells 0 and 3 of the 2 x 2 grid. -/
def frameC : GeoFrame :=
  ⟨["geometry"],
   [⟨0, [], (0, 0)⟩, ⟨1, [], (10, 10)⟩, ⟨2, [], (2, 2)⟩, ⟨3, [], (8, 8)⟩]⟩

/-- The output of `resample_shapefile_spatially rngZero frameC 2 2 [] true none`:
two sampled records and two cells logged empty. -/
def outC : RunResult :=
  ⟨[⟨2, [], (2, 2)⟩, ⟨3, [], (8, 8)⟩],
   [⟨0, 5, 5, 10⟩, ⟨5, 10, 0, 5⟩]⟩

deriving instance DecidableEq for Except

/- ### Facts about the embedded numeric helpers -/

theorem sortedUnique_sorted {α : Type} [LinearOrder α] (l : List α) :
    (sortedUnique l).Sorted (fun a b => a ≤ b) :=
  List.Pairwise.sublist (List.dedup_sublist _) (List.sorted_insertionSort _ l)

theorem sortedUnique_nodup {α : Type} [LinearOrder α] (l : List α) :
    (sortedUnique l).Nodup :=
  List.nodup_dedup _

theorem mem_sortedUnique {α : Type} [LinearOrder α] {l : List α} {x : α} :
    x ∈ sortedUnique l ↔ x ∈ l :=
  List.mem_dedup.trans (List.perm_insertionSort _ l).mem_iff

theorem sortedUnique_ne_nil {α : Type} [LinearOrder α] {l : List α} (h : l ≠ []) :
    sortedUnique l ≠ [] := by
  obtain ⟨x, hx⟩ := List.exists_mem_of_ne_nil l h
  exact List.ne_nil_of_mem (mem_sortedUnique.mpr hx)

theorem sortedUnique_sorted_lt {α : Type} [LinearOrder α] (l : List α) :
    (sortedUnique l).Sorted (fun a b => a < b) :=
  ((sortedUnique_sorted l).and (sortedUnique_nodup l)).imp
    (fun h => lt_of_le_of_ne h.1 h.2)

theorem sortedUnique_singleton (e : ℚ) : sortedUnique [e] = [e] := by
  simp [sortedUnique, List.insertionSort, List.orderedInsert]

theorem sortedUnique_of_sorted_nodup {l : List ℚ}
    (hs : l.Sorted (fun a b => a ≤ b)) (hn : l.Nodup) : sortedUnique l = l := by
  unfold sortedUnique
  rw [List.Sorted.insertionSort_eq hs, List.dedup_eq_self.mpr hn]

theorem sorted_getD_le {v : List ℚ} (hv : v.Sorted (fun a b => a ≤ b)) {i j : ℕ}
    (hij : i ≤ j) (hj : j < v.length) : v.getD i 0 ≤ v.getD j 0 := by
  have hi : i < v.length := lt_of_le_of_lt hij hj
  rw [List.getD_eq_getElem v 0 hi, List.getD_eq_getElem v 0 hj]
  rcases Nat.eq_or_lt_of_le hij with rfl | hlt
  · exact le_refl _
  · exact List.pairwise_iff_getElem.mp hv i j hi hj hlt

theorem sorted_getD_lt {v : List ℚ} (hv : v.Sorted (fun a b => a < b)) {i j : ℕ}
    (hij : i < j) (hj : j < v.length) : v.getD i 0 < v.getD j 0 := by
  have hi : i < v.length := lt_trans hij hj
  rw [List.getD_eq_getElem v 0 hi, List.getD_eq_getElem v 0 hj]
  exact List.pairwise_iff_getElem.mp hv i j hi hj hij

theorem getD_mem {v : List ℚ} {i : ℕ} (h : i < v.length) : v.getD i 0 ∈ v := by
  rw [List.getD_eq_getElem v 0 h]
  exact List.getElem_mem h

theorem floor_le_len_sub_one {m : ℕ} {t : ℚ} (h : t ≤ (m : ℚ) - 1) :
    ⌊t⌋ ≤ (m : ℤ) - 1 := by
  have h2 : ((m : ℚ) - 1) = (((m : ℤ) - 1 : ℤ) : ℚ) := by push_cast; ring
  have h3 := Int.floor_le_floor (α := ℚ) h
  rwa [h2, Int.floor_intCast] at h3

theorem interpAt_lower {v : List ℚ} (hv : v.Sorted (fun a b => a ≤ b)) {t : ℚ}
    (h0 : 0 ≤ t) (h1 : t ≤ (v.length : ℚ) - 1) :
    v.getD (⌊t⌋).toNat 0 ≤ interpAt v t := by
  unfold interpAt
  by_cases hf : t - (⌊t⌋ : ℚ) = 0
  · rw [if_pos hf]
  · rw [if_neg hf]
    have hfl : (0 : ℤ) ≤ ⌊t⌋ := Int.floor_nonneg.mpr h0
    have hub : ⌊t⌋ ≤ (v.length : ℤ) - 1 := floor_le_len_sub_one h1
    have hstrict : ⌊t⌋ < (v.length : ℤ) - 1 := by
      rcases eq_or_lt_of_le hub with heq2 | hlt2
      · exfalso
        apply hf
        have hle : ((v.length : ℚ) - 1) ≤ t := by
          have h4 : ((⌊t⌋ : ℤ) : ℚ) ≤ t := Int.floor_le t
          rw [heq2] at h4
          push_cast at h4
          linarith
        have h5 : t = (v.length : ℚ) - 1 := le_antisymm h1 hle
        rw [h5, show ((v.length : ℚ) - 1) = (((v.length : ℤ) - 1 : ℤ) : ℚ) by push_cast; ring,
          Int.floor_intCast]
        simp
      · exact hlt2
    have hidx : (⌊t⌋).toNat + 1 < v.length := by omega
    have hd : v.getD (⌊t⌋).toNat 0 ≤ v.getD ((⌊t⌋).toNat + 1) 0 :=
      sorted_getD_le hv (Nat.le_succ _) hidx
    have hfpos : 0 ≤ t - (⌊t⌋ : ℚ) := sub_nonneg.mpr (Int.floor_le t)
    nlinarith [mul_nonneg (sub_nonneg.mpr hd) hfpos]

theorem interpAt_upper {v : List ℚ} (hv : v.Sorted (fun a b => a ≤ b)) {t : ℚ}
    (h0 : 0 ≤ t) (hidx : (⌊t⌋).toNat + 1 < v.length) :
    interpAt v t ≤ v.getD ((⌊t⌋).toNat + 1) 0 := by
  unfold interpAt
  have hd : v.getD (⌊t⌋).toNat 0 ≤ v.getD ((⌊t⌋).toNat + 1) 0 :=
    sorted_getD_le hv (Nat.le_succ _) hidx
  by_cases hf : t - (⌊t⌋ : ℚ) = 0
  · rw [if_pos hf]
    exact hd
  · rw [if_neg hf]
    have hf1 : t - (⌊t⌋ : ℚ) < 1 := by
      have h4 := Int.lt_floor_add_one t
      push_cast at h4
      linarith
    nlinarith [mul_nonneg (sub_nonneg.mpr hd) (sub_nonneg.mpr (le_of_lt hf1))]

theorem interpAt_mono {v : List ℚ} (hv : v.Sorted (fun a b => a ≤ b)) {t u : ℚ}
    (h0 : 0 ≤ t) (htu : t ≤ u) (h1 : u ≤ (v.length : ℚ) - 1) :
    interpAt v t ≤ interpAt v u := by
  have hu0 : 0 ≤ u := le_trans h0 htu
  have ht1 : t ≤ (v.length : ℚ) - 1 := le_trans htu h1
  rcases eq_or_lt_of_le (Int.floor_le_floor (α := ℚ) htu) with heq | hlt
  · by_cases hfu : u - (⌊u⌋ : ℚ) = 0
    · have htu2 : u ≤ t := by
        have h4 : (⌊t⌋ : ℚ) ≤ t := Int.floor_le t
        have h5 : ((⌊t⌋ : ℤ) : ℚ) = ((⌊u⌋ : ℤ) : ℚ) := by exact_mod_cast congrArg Int.cast heq
        linarith
      have hteq : t = u := le_antisymm htu htu2
      rw [hteq]
    · have hlow := interpAt_lower hv hu0 h1
      have hform : interpAt v t = v.getD (⌊u⌋).toNat 0 ∨
          (interpAt v t = v.getD (⌊t⌋).toNat 0 +
            (v.getD ((⌊t⌋).toNat + 1) 0 - v.getD (⌊t⌋).toNat 0) * (t - (⌊t⌋ : ℚ)) ∧
            t - (⌊t⌋ : ℚ) ≠ 0) := by
        unfold interpAt
        by_cases hft : t - (⌊t⌋ : ℚ) = 0
        · rw [if_pos hft, heq]
          exact Or.inl rfl
        · rw [if_neg hft]
          exact Or.inr ⟨rfl, hft⟩
      rcases hform with hcase | ⟨hcase, hft⟩
      · rw [hcase]
        exact hlow
      · -- both t and u have a fractional part and share a floor
        have hfl : (0 : ℤ) ≤ ⌊u⌋ := Int.floor_nonneg.mpr hu0
        have hub : ⌊u⌋ ≤ (v.length : ℤ) - 1 := floor_le_len_sub_one h1
        have hstrict : ⌊u⌋ < (v.length : ℤ) - 1 := by
          rcases eq_or_lt_of_le hub with heq2 | hlt2
          · exfalso
            apply hfu
            have hle : ((v.length : ℚ) - 1) ≤ u := by
              have h4 : ((⌊u⌋ : ℤ) : ℚ) ≤ u := Int.floor_le u
              rw [heq2] at h4
              push_cast at h4
              linarith
            have h5 : u = (v.length : ℚ) - 1 := le_antisymm h1 hle
            rw [h5, show ((v.length : ℚ) - 1) = (((v.length : ℤ) - 1 : ℤ) : ℚ) by push_cast; ring,
              Int.floor_intCast]
            simp
          · exact hlt2
        have hidx : (⌊u⌋).toNat + 1 < v.length := by omega
        have hd : v.getD (⌊u⌋).toNat 0 ≤ v.getD ((⌊u⌋).toNat + 1) 0 :=
          sorted_getD_le hv (Nat.le_succ _) hidx
        have hcastq : ((⌊t⌋ : ℤ) : ℚ) = ((⌊u⌋ : ℤ) : ℚ) := by exact_mod_cast congrArg Int.cast heq
        have huform : interpAt v u = v.getD (⌊u⌋).toNat 0 +
            (v.getD ((⌊u⌋).toNat + 1) 0 - v.getD (⌊u⌋).toNat 0) * (u - (⌊u⌋ : ℚ)) := by
          unfold interpAt
          rw [if_neg hfu]
        rw [hcase, huform, heq]
        have hfle : t - (⌊t⌋ : ℚ) ≤ u - (⌊u⌋ : ℚ) := by
          rw [hcastq] at *
          linarith
        nlinarith [mul_nonneg (sub_nonneg.mpr hd) (sub_nonneg.mpr hfle)]
  · -- strictly larger floor: chain through the segment endpoints
    have hfl : (0 : ℤ) ≤ ⌊t⌋ := Int.floor_nonneg.mpr h0
    have hub : ⌊u⌋ ≤ (v.length : ℤ) - 1 := floor_le_len_sub_one h1
    have hidxt : (⌊t⌋).toNat + 1 < v.length := by omega
    have hidxu : (⌊u⌋).toNat < v.length := by omega
    calc interpAt v t ≤ v.getD ((⌊t⌋).toNat + 1) 0 := interpAt_upper hv h0 hidxt
      _ ≤ v.getD ((⌊u⌋).toNat) 0 := sorted_getD_le hv (by omega) hidxu
      _ ≤ interpAt v u := interpAt_lower hv hu0 h1

theorem interpAt_strict_upper {v : List ℚ} (hv : v.Sorted (fun a b => a < b))
    {t : ℚ} (hidx : (⌊t⌋).toNat + 1 < v.length) :
    interpAt v t < v.getD ((⌊t⌋).toNat + 1) 0 := by
  have hd : v.getD (⌊t⌋).toNat 0 < v.getD ((⌊t⌋).toNat + 1) 0 :=
    sorted_getD_lt hv (Nat.lt_succ_self _) hidx
  unfold interpAt
  by_cases hf : t - (⌊t⌋ : ℚ) = 0
  · rw [if_pos hf]
    exact hd
  · rw [if_neg hf]
    have hf1 : t - (⌊t⌋ : ℚ) < 1 := by
      have h4 := Int.lt_floor_add_one t
      push_cast at h4
      linarith
    nlinarith [mul_lt_mul_of_pos_left hf1 (sub_pos.mpr hd)]

theorem interpAt_strict_mono {v : List ℚ} (hv : v.Sorted (fun a b => a < b))
    {t u : ℚ} (h0 : 0 ≤ t) (htu : t < u) (h1 : u ≤ (v.length : ℚ) - 1) :
    interpAt v t < interpAt v u := by
  have hvle : v.Sorted (fun a b => a ≤ b) := hv.imp (fun h => le_of_lt h)
  have hu0 : 0 ≤ u := le_trans h0 (le_of_lt htu)
  have hfl : (0 : ℤ) ≤ ⌊t⌋ := Int.floor_nonneg.mpr h0
  have hflu : (0 : ℤ) ≤ ⌊u⌋ := Int.floor_nonneg.mpr hu0
  have hubu : ⌊u⌋ ≤ (v.length : ℤ) - 1 := floor_le_len_sub_one h1
  rcases eq_or_lt_of_le (Int.floor_le_floor (α := ℚ) (le_of_lt htu)) with heq | hlt
  · -- shared segment: u must have a fractional part, the slope is positive
    have hfu : u - (⌊u⌋ : ℚ) ≠ 0 := by
      intro hc
      have h4 : u = ((⌊u⌋ : ℤ) : ℚ) := by linarith
      have h5 : ((⌊t⌋ : ℤ) : ℚ) ≤ t := Int.floor_le t
      have h6 : ((⌊t⌋ : ℤ) : ℚ) = ((⌊u⌋ : ℤ) : ℚ) := by
        exact_mod_cast congrArg Int.cast heq
      linarith
    have hstrict : ⌊u⌋ < (v.length : ℤ) - 1 := by
      rcases eq_or_lt_of_le hubu with heq2 | hlt2
      · exfalso
        apply hfu
        have hle : ((v.length : ℚ) - 1) ≤ u := by
          have h4 : ((⌊u⌋ : ℤ) : ℚ) ≤ u := Int.floor_le u
          rw [heq2] at h4
          push_cast at h4
          linarith
        have h5 : u = (v.length : ℚ) - 1 := le_antisymm h1 hle
        rw [h5, show ((v.length : ℚ) - 1) = (((v.length : ℤ) - 1 : ℤ) : ℚ) by push_cast; ring,
          Int.floor_intCast]
        simp
      · exact hlt2
    have hidx : (⌊u⌋).toNat + 1 < v.length := by omega
    have hd : v.getD (⌊u⌋).toNat 0 < v.getD ((⌊u⌋).toNat + 1) 0 :=
      sorted_getD_lt hv (Nat.lt_succ_self _) hidx
    have hcastq : ((⌊t⌋ : ℤ) : ℚ) = ((⌊u⌋ : ℤ) : ℚ) := by
      exact_mod_cast congrArg Int.cast heq
    have hufu : 0 < u - ((⌊u⌋ : ℤ) : ℚ) :=
      lt_of_le_of_ne (sub_nonneg.mpr (Int.floor_le u)) (Ne.symm hfu)
    have huform : interpAt v u = v.getD (⌊u⌋).toNat 0 +
        (v.getD ((⌊u⌋).toNat + 1) 0 - v.getD (⌊u⌋).toNat 0) * (u - ((⌊u⌋ : ℤ) : ℚ)) := by
      unfold interpAt
      rw [if_neg hfu]
    by_cases hft : t - (⌊t⌋ : ℚ) = 0
    · have htform : interpAt v t = v.getD (⌊u⌋).toNat 0 := by
        unfold interpAt
        rw [if_pos hft, heq]
      rw [htform, huform]
      nlinarith [mul_pos (sub_pos.mpr hd) hufu]
    · have htform : interpAt v t = v.getD (⌊u⌋).toNat 0 +
          (v.getD ((⌊u⌋).toNat + 1) 0 - v.getD (⌊u⌋).toNat 0) * (t - ((⌊u⌋ : ℤ) : ℚ)) := by
        unfold interpAt
        rw [if_neg hft, heq]
      rw [htform, huform]
      have hflt : t - ((⌊u⌋ : ℤ) : ℚ) < u - ((⌊u⌋ : ℤ) : ℚ) := by linarith
      nlinarith [mul_lt_mul_of_pos_left hflt (sub_pos.mpr hd)]
  · -- strictly larger floor: the first segment ends strictly below the next
    have hidxt : (⌊t⌋).toNat + 1 < v.length := by omega
    have hidxu : (⌊u⌋).toNat < v.length := by omega
    calc interpAt v t < v.getD ((⌊t⌋).toNat + 1) 0 := interpAt_strict_upper hv hidxt
      _ ≤ v.getD ((⌊u⌋).toNat) 0 := sorted_getD_le hvle (by omega) hidxu
      _ ≤ interpAt v u := interpAt_lower hvle hu0 h1

theorem linspace01_length (num : ℕ) : (linspace01 num).length = num := by
  unfold linspace01
  split
  · simp [*]
  · simp

theorem linspace01_mem_bounds {num : ℕ} {q : ℚ} (h : q ∈ linspace01 num) :
    0 ≤ q ∧ q ≤ 1 := by
  rcases num with _ | _ | n
  · simp [linspace01] at h
  · rw [linspace01, if_pos rfl] at h
    simp at h
    simp [h]
  · rw [linspace01, if_neg (by omega)] at h
    obtain ⟨i, hi, rfl⟩ := List.mem_map.mp h
    rw [List.mem_range] at hi
    have hden : (0 : ℚ) < ((n + 2 : ℕ) : ℚ) - 1 := by push_cast; linarith
    refine ⟨div_nonneg (by positivity) (le_of_lt hden), ?_⟩
    rw [div_le_one hden]
    have h5 : (i : ℚ) ≤ ((n + 1 : ℕ) : ℚ) := by exact_mod_cast Nat.le_of_lt_succ hi
    push_cast at h5 ⊢
    linarith

theorem linspace01_sorted (num : ℕ) : (linspace01 num).Sorted (fun a b => a ≤ b) := by
  rcases num with _ | _ | n
  · simp [linspace01]
  · rw [linspace01, if_pos rfl]
    exact List.sorted_singleton _
  · rw [linspace01, if_neg (by omega)]
    rw [List.Sorted, List.pairwise_iff_getElem]
    intro i j hi hj hij
    simp only [List.getElem_map, List.getElem_range]
    simp only [List.length_map, List.length_range] at hi hj
    have hden : (0 : ℚ) ≤ ((n + 2 : ℕ) : ℚ) - 1 := by push_cast; linarith
    have hkey : (j : ℚ) / (((n + 2 : ℕ) : ℚ) - 1) - (i : ℚ) / (((n + 2 : ℕ) : ℚ) - 1) =
        ((j : ℚ) - (i : ℚ)) / (((n + 2 : ℕ) : ℚ) - 1) := by ring
    have hnn : 0 ≤ ((j : ℚ) - (i : ℚ)) / (((n + 2 : ℕ) : ℚ) - 1) := by
      apply div_nonneg _ hden
      have h5 : (i : ℚ) ≤ (j : ℚ) := by exact_mod_cast le_of_lt hij
      linarith
    linarith

theorem linspace01_sorted_lt (num : ℕ) :
    (linspace01 num).Sorted (fun a b => a < b) := by
  rcases num with _ | _ | n
  · simp [linspace01]
  · rw [linspace01, if_pos rfl]
    exact List.sorted_singleton _
  · rw [linspace01, if_neg (by omega)]
    rw [List.Sorted, List.pairwise_iff_getElem]
    intro i j hi hj hij
    simp only [List.getElem_map, List.getElem_range]
    simp only [List.length_map, List.length_range] at hi hj
    have hden : (0 : ℚ) < ((n + 2 : ℕ) : ℚ) - 1 := by push_cast; linarith
    have h5 : (i : ℚ) < (j : ℚ) := by exact_mod_cast hij
    have hkey : (j : ℚ) / (((n + 2 : ℕ) : ℚ) - 1) - (i : ℚ) / (((n + 2 : ℕ) : ℚ) - 1) =
        ((j : ℚ) - (i : ℚ)) / (((n + 2 : ℕ) : ℚ) - 1) := by ring
    have hpos : 0 < ((j : ℚ) - (i : ℚ)) / (((n + 2 : ℕ) : ℚ) - 1) :=
      div_pos (by linarith) hden
    linarith

theorem linspace01_head (num : ℕ) (h : 2 ≤ num) : (linspace01 num).head? = some 0 := by
  obtain ⟨n, rfl⟩ : ∃ n, num = n + 2 := ⟨num - 2, by omega⟩
  rw [linspace01, if_neg (by omega), List.range_succ_eq_map]
  simp

theorem linspace01_getLast (num : ℕ) (h : 2 ≤ num) :
    (linspace01 num).getLast? = some 1 := by
  obtain ⟨n, rfl⟩ : ∃ n, num = n + 2 := ⟨num - 2, by omega⟩
  rw [linspace01, if_neg (by omega), List.range_succ, List.map_append]
  simp only [List.map_cons, List.map_nil]
  rw [List.getLast?_concat]
  have hden : (((n + 2 : ℕ) : ℚ) - 1) ≠ 0 := by push_cast; intro hc; linarith
  rw [Option.some_inj, div_eq_one_iff_eq hden]
  push_cast
  ring

theorem linspace01_dropLast_lt_one {num : ℕ} (h2 : 2 ≤ num) {q : ℚ}
    (h : q ∈ (linspace01 num).dropLast) : 0 ≤ q ∧ q < 1 := by
  obtain ⟨n, rfl⟩ : ∃ n, num = n + 2 := ⟨num - 2, by omega⟩
  rw [linspace01, if_neg (by omega), List.range_succ, List.map_append] at h
  simp only [List.map_cons, List.map_nil] at h
  rw [List.dropLast_concat] at h
  obtain ⟨i, hi, rfl⟩ := List.mem_map.mp h
  rw [List.mem_range] at hi
  have hden : (0 : ℚ) < ((n + 2 : ℕ) : ℚ) - 1 := by push_cast; linarith
  refine ⟨div_nonneg (by positivity) (le_of_lt hden), ?_⟩
  rw [div_lt_one hden]
  have h5 : (i : ℚ) < ((n + 1 : ℕ) : ℚ) := by exact_mod_cast hi
  push_cast at h5 ⊢
  linarith

theorem getScore_zero (v : List ℚ) : getScore v 0 = v.getD 0 0 := by
  unfold getScore interpAt
  norm_num

theorem getScore_one {v : List ℚ} (hne : v ≠ []) :
    getScore v 1 = v.getD (v.length - 1) 0 := by
  have hm : 1 ≤ v.length := List.length_pos.mpr hne
  unfold getScore interpAt
  rw [one_mul]
  rw [show ((v.length : ℚ) - 1) = (((v.length - 1 : ℕ) : ℤ) : ℚ) by
    push_cast [Nat.cast_sub hm]; ring]
  rw [Int.floor_intCast]
  simp

theorem getScore_mono {v : List ℚ} (hv : v.Sorted (fun a b => a ≤ b))
    (hne : v ≠ []) {q q' : ℚ} (h0 : 0 ≤ q) (hqq : q ≤ q') (h1 : q' ≤ 1) :
    getScore v q ≤ getScore v q' := by
  have hm : 1 ≤ v.length := List.length_pos.mpr hne
  have hm' : (0 : ℚ) ≤ (v.length : ℚ) - 1 := by
    have h5 : (1 : ℚ) ≤ (v.length : ℚ) := by exact_mod_cast hm
    linarith
  apply interpAt_mono hv (mul_nonneg h0 hm') (mul_le_mul_of_nonneg_right hqq hm')
  calc q' * ((v.length : ℚ) - 1) ≤ 1 * ((v.length : ℚ) - 1) :=
        mul_le_mul_of_nonneg_right h1 hm'
    _ = (v.length : ℚ) - 1 := one_mul _

theorem getScore_strict_mono {v : List ℚ} (hv : v.Sorted (fun a b => a < b))
    (h2 : 2 ≤ v.length) {q q' : ℚ} (h0 : 0 ≤ q) (hqq : q < q') (h1 : q' ≤ 1) :
    getScore v q < getScore v q' := by
  have hm' : (0 : ℚ) < (v.length : ℚ) - 1 := by
    have h5 : (2 : ℚ) ≤ (v.length : ℚ) := by exact_mod_cast h2
    linarith
  unfold getScore
  apply interpAt_strict_mono hv (mul_nonneg h0 (le_of_lt hm'))
    (mul_lt_mul_of_pos_right hqq hm')
  calc q' * ((v.length : ℚ) - 1) ≤ 1 * ((v.length : ℚ) - 1) :=
        mul_le_mul_of_nonneg_right h1 (le_of_lt hm')
    _ = (v.length : ℚ) - 1 := one_mul _

theorem interpAt_lt_last {v : List ℚ} (hv : v.Sorted (fun a b => a < b)) {t : ℚ}
    (h0 : 0 ≤ t) (h1 : t < (v.length : ℚ) - 1) :
    interpAt v t < v.getD (v.length - 1) 0 := by
  have hvle : v.Sorted (fun a b => a ≤ b) := hv.imp (fun h => le_of_lt h)
  have hfl : (0 : ℤ) ≤ ⌊t⌋ := Int.floor_nonneg.mpr h0
  have hub : ⌊t⌋ < (v.length : ℤ) - 1 := by
    have h5 : ((⌊t⌋ : ℤ) : ℚ) < (((v.length : ℤ) - 1 : ℤ) : ℚ) := by
      push_cast
      linarith [Int.floor_le t]
    exact_mod_cast h5
  unfold interpAt
  by_cases hf : t - (⌊t⌋ : ℚ) = 0
  · rw [if_pos hf]
    exact sorted_getD_lt hv (by omega) (by omega)
  · rw [if_neg hf]
    have hidx : (⌊t⌋).toNat + 1 < v.length := by omega
    have hd : v.getD (⌊t⌋).toNat 0 < v.getD ((⌊t⌋).toNat + 1) 0 :=
      sorted_getD_lt hv (Nat.lt_succ_self _) hidx
    have hf1 : t - (⌊t⌋ : ℚ) < 1 := by
      have h4 := Int.lt_floor_add_one t
      push_cast at h4
      linarith
    have hle2 : v.getD ((⌊t⌋).toNat + 1) 0 ≤ v.getD (v.length - 1) 0 :=
      sorted_getD_le hvle (by omega) (by omega)
    nlinarith [mul_lt_mul_of_pos_left hf1 (sub_pos.mpr hd)]

theorem computeBinEdges_length (values : List ℚ) (bins : ℕ) :
    (computeBinEdges values bins).length = bins + 1 := by
  unfold computeBinEdges
  rw [List.length_map, linspace01_length]

theorem computeBinEdges_sorted (values : List ℚ) (bins : ℕ) (hne : values ≠ []) :
    (computeBinEdges values bins).Sorted (fun a b => a ≤ b) := by
  unfold computeBinEdges
  rw [List.Sorted, List.pairwise_iff_getElem]
  intro i j hi hj hij
  simp only [List.length_map] at hi hj
  simp only [List.getElem_map]
  have hqle := List.pairwise_iff_getElem.mp (linspace01_sorted (bins + 1)) i j hi hj hij
  have hb1 := linspace01_mem_bounds (List.getElem_mem hi)
  have hb2 := linspace01_mem_bounds (List.getElem_mem hj)
  exact getScore_mono (sortedUnique_sorted _) (sortedUnique_ne_nil hne) hb1.1 hqle hb2.2

theorem computeBinEdges_sorted_lt (values : List ℚ) (bins : ℕ)
    (h2 : 2 ≤ (sortedUnique values).length) :
    (computeBinEdges values bins).Sorted (fun a b => a < b) := by
  unfold computeBinEdges
  rw [List.Sorted, List.pairwise_iff_getElem]
  intro i j hi hj hij
  simp only [List.length_map] at hi hj
  simp only [List.getElem_map]
  have hqlt := List.pairwise_iff_getElem.mp (linspace01_sorted_lt (bins + 1)) i j hi hj hij
  have hb1 := linspace01_mem_bounds (List.getElem_mem hi)
  have hb2 := linspace01_mem_bounds (List.getElem_mem hj)
  exact getScore_strict_mono (sortedUnique_sorted_lt values) h2 hb1.1 hqlt hb2.2

theorem computeBinEdges_head (values : List ℚ) (bins : ℕ) (hb : 1 ≤ bins) :
    (computeBinEdges values bins).head? = some ((sortedUnique values).getD 0 0) := by
  unfold computeBinEdges
  rw [List.head?_map, linspace01_head (bins + 1) (by omega)]
  simp [getScore_zero]

theorem computeBinEdges_getLast (values : List ℚ) (bins : ℕ) (hb : 1 ≤ bins)
    (hne : values ≠ []) :
    (computeBinEdges values bins).getLast? =
      some ((sortedUnique values).getD ((sortedUnique values).length - 1) 0) := by
  unfold computeBinEdges
  rw [List.getLast?_map, linspace01_getLast (bins + 1) (by omega)]
  simp [getScore_one (sortedUnique_ne_nil hne)]

theorem sortedUnique_head_min {values : List ℚ} (hne : values ≠ []) :
    (sortedUnique values).getD 0 0 ∈ values ∧
      ∀ x ∈ values, (sortedUnique values).getD 0 0 ≤ x := by
  have hu : sortedUnique values ≠ [] := sortedUnique_ne_nil hne
  have hlen : 0 < (sortedUnique values).length := List.length_pos.mpr hu
  refine ⟨mem_sortedUnique.mp (getD_mem hlen), ?_⟩
  intro x hx
  obtain ⟨j, hj, rfl⟩ := List.mem_iff_getElem.mp (mem_sortedUnique.mpr hx)
  rw [← List.getD_eq_getElem _ 0 hj]
  exact sorted_getD_le (sortedUnique_sorted _) (Nat.zero_le j) hj

theorem sortedUnique_getLast_max {values : List ℚ} (hne : values ≠ []) :
    (sortedUnique values).getD ((sortedUnique values).length - 1) 0 ∈ values ∧
      ∀ x ∈ values, x ≤ (sortedUnique values).getD ((sortedUnique values).length - 1) 0 := by
  have hu : sortedUnique values ≠ [] := sortedUnique_ne_nil hne
  have hlen : 0 < (sortedUnique values).length := List.length_pos.mpr hu
  refine ⟨mem_sortedUnique.mp (getD_mem (by omega)), ?_⟩
  intro x hx
  obtain ⟨j, hj, rfl⟩ := List.mem_iff_getElem.mp (mem_sortedUnique.mpr hx)
  rw [← List.getD_eq_getElem _ 0 hj]
  exact sorted_getD_le (sortedUnique_sorted _) (by omega) (by omega)

theorem binsToCuts_covers {values : List ℚ} {bins : ℕ} (hne : values ≠ [])
    (hb : 1 ≤ bins) {x : ℚ} (hx : x ∈ values) :
    ∃ b, binsToCuts (computeBinEdges values bins) x = some b ∧ b < bins := by
  simp only [binsToCuts]
  have hlen := computeBinEdges_length values bins
  have hhead := computeBinEdges_head values bins hb
  have hlast := computeBinEdges_getLast values bins hb hne
  have hmin := (sortedUnique_head_min hne).2 x hx
  have hmax := (sortedUnique_getLast_max hne).2 x hx
  by_cases hcase : (computeBinEdges values bins).head? = some x
  · rw [if_pos hcase, hlen]
    rw [if_neg (by omega)]
    exact ⟨0, rfl, by omega⟩
  · rw [if_neg hcase]
    set c := (computeBinEdges values bins).countP (fun e => decide (e < x)) with hc
    have hm0x : (sortedUnique values).getD 0 0 < x := by
      rcases lt_or_eq_of_le hmin with h5 | h5
      · exact h5
      · exact absurd (by rw [hhead, h5]) hcase
    have hm0mem : (sortedUnique values).getD 0 0 ∈ computeBinEdges values bins :=
      List.mem_of_mem_head? (Option.mem_def.mpr hhead)
    have hMmem : (sortedUnique values).getD ((sortedUnique values).length - 1) 0 ∈
        computeBinEdges values bins :=
      List.mem_of_mem_getLast? (Option.mem_def.mpr hlast)
    have hpos : 0 < c := by
      rw [hc]
      rw [List.countP_pos_iff]
      exact ⟨_, hm0mem, decide_eq_true hm0x⟩
    have hcle : c ≤ (computeBinEdges values bins).length := List.countP_le_length _
    have hcne : c ≠ (computeBinEdges values bins).length := by
      intro hceq
      have hall := List.countP_eq_length.mp (hc ▸ hceq)
      have h6 := hall _ hMmem
      rw [decide_eq_true_eq] at h6
      exact absurd hmax (not_le.mpr h6)
    rw [hlen] at hcle hcne
    rw [hlen, if_neg (by omega)]
    exact ⟨c - 1, rfl, by omega⟩

theorem binsToCuts_lowest {values : List ℚ} {bins : ℕ} (hne : values ≠ [])
    (hb : 1 ≤ bins) :
    binsToCuts (computeBinEdges values bins) ((sortedUnique values).getD 0 0) =
      some 0 := by
  simp only [binsToCuts]
  rw [if_pos (computeBinEdges_head values bins hb), computeBinEdges_length]
  rw [if_neg (by omega)]

theorem binsToCuts_highest {values : List ℚ} {bins : ℕ} (hne : values ≠ [])
    (hb : 1 ≤ bins) (h2 : 2 ≤ (sortedUnique values).length) :
    binsToCuts (computeBinEdges values bins)
      ((sortedUnique values).getD ((sortedUnique values).length - 1) 0) =
      some (bins - 1) := by
  simp only [binsToCuts]
  have hlen := computeBinEdges_length values bins
  have hhead := computeBinEdges_head values bins hb
  have hlast := computeBinEdges_getLast values bins hb hne
  have hm0M : (sortedUnique values).getD 0 0 <
      (sortedUnique values).getD ((sortedUnique values).length - 1) 0 :=
    sorted_getD_lt (sortedUnique_sorted_lt values) (by omega) (by omega)
  have hcase : ¬((computeBinEdges values bins).head? =
      some ((sortedUnique values).getD ((sortedUnique values).length - 1) 0)) := by
    rw [hhead]
    intro hceq
    rw [Option.some_inj] at hceq
    exact absurd hceq (ne_of_lt hm0M)
  rw [if_neg hcase]
  have hEne : computeBinEdges values bins ≠ [] := by
    intro h5
    rw [h5] at hlen
    simp at hlen
  have hgetLastEq : (computeBinEdges values bins).getLast hEne =
      (sortedUnique values).getD ((sortedUnique values).length - 1) 0 := by
    have h5 := List.getLast?_eq_getLast (computeBinEdges values bins) hEne
    rw [hlast] at h5
    exact (Option.some_inj.mp h5).symm
  have hdropLen : (computeBinEdges values bins).dropLast.length = bins := by
    rw [List.length_dropLast, hlen]
    omega
  have hdropAll : ∀ e ∈ (computeBinEdges values bins).dropLast,
      (fun e => decide (e < (sortedUnique values).getD ((sortedUnique values).length - 1) 0)) e
        = true := by
    intro e he
    unfold computeBinEdges at he
    rw [← List.map_dropLast] at he
    obtain ⟨q, hq, rfl⟩ := List.mem_map.mp he
    obtain ⟨hq0, hq1⟩ := linspace01_dropLast_lt_one (by omega) hq
    rw [decide_eq_true_eq]
    have hulen : (0 : ℚ) < ((sortedUnique values).length : ℚ) - 1 := by
      have h5 : (2 : ℚ) ≤ ((sortedUnique values).length : ℚ) := by exact_mod_cast h2
      linarith
    unfold getScore
    apply interpAt_lt_last (sortedUnique_sorted_lt values)
      (mul_nonneg hq0 (le_of_lt hulen))
    calc q * (((sortedUnique values).length : ℚ) - 1) <
          1 * (((sortedUnique values).length : ℚ) - 1) :=
        mul_lt_mul_of_pos_right hq1 hulen
      _ = ((sortedUnique values).length : ℚ) - 1 := one_mul _
  have hcount : (computeBinEdges values bins).countP
      (fun e => decide (e < (sortedUnique values).getD ((sortedUnique values).length - 1) 0))
      = bins := by
    conv_lhs => rw [← List.dropLast_concat_getLast hEne]
    rw [List.countP_append]
    have h5 : (computeBinEdges values bins).dropLast.countP
        (fun e => decide (e < (sortedUnique values).getD ((sortedUnique values).length - 1) 0))
        = bins := by
      rw [List.countP_eq_length.mpr hdropAll, hdropLen]
    rw [h5, hgetLastEq]
    simp [List.countP_cons]
  rw [hcount, hlen, if_neg (by omega)]

theorem binsToCutsVec_singleton (e : ℚ) (xs : List ℚ) :
    binsToCutsVec [e] xs = .ok (xs.map (binsToCuts [e])) := by
  unfold binsToCutsVec
  rw [sortedUnique_singleton]
  simp

theorem binsToCutsVec_distinct (values : List ℚ) (bins : ℕ)
    (h2 : 2 ≤ (sortedUnique values).length) (xs : List ℚ) :
    binsToCutsVec (computeBinEdges values bins) xs =
      .ok (xs.map (binsToCuts (computeBinEdges values bins))) := by
  have hlt := computeBinEdges_sorted_lt values bins h2
  have hnodup : (computeBinEdges values bins).Nodup := hlt.imp ne_of_lt
  have hlen := computeBinEdges_length values bins
  have hne2 : computeBinEdges values bins ≠ [] := by
    intro hc
    rw [hc] at hlen
    simp at hlen
  unfold binsToCutsVec
  rw [sortedUnique_of_sorted_nodup (hlt.imp le_of_lt) hnodup]
  rw [if_neg (lt_irrefl _), if_neg hne2]

/- ### Sampling facts -/

theorem npChoice_insufficient (rng : ℕ → ℕ) (off m n : ℕ) (hm : m ≠ 0)
    (hn : m < n) : npChoice rng off m n false = .error .insufficientSamples := by
  unfold npChoice
  rw [if_neg (fun hc => hm hc.1), if_pos ⟨rfl, hn⟩]

theorem sampleGroup_insufficient (rng : ℕ → ℕ) (off : ℕ) (g : List GeoRecord)
    (n : ℕ) (hg : g ≠ []) (hn : g.length < n) :
    sampleGroup rng off g n false = .error .insufficientSamples := by
  unfold sampleGroup
  rw [npChoice_insufficient rng off g.length n
    (fun h => hg (List.length_eq_zero.mp h)) hn]

theorem sampleGroup_replace (rng : ℕ → ℕ) (off : ℕ) (g : List GeoRecord) (n : ℕ)
    (hg : g ≠ []) :
    sampleGroup rng off g n true =
      .ok (((List.range n).map (fun i => rng (off + i) % g.length)).map
        (fun j => g.getD j default)) := by
  unfold sampleGroup npChoice
  rw [if_neg (fun hc => (hg (List.length_eq_zero.mp hc.1)))]
  rw [if_neg (by simp)]
  rw [if_pos rfl]

theorem sampleGroup_replace_length (rng : ℕ → ℕ) (off : ℕ) (g : List GeoRecord)
    (n : ℕ) (hg : g ≠ []) :
    ∃ s, sampleGroup rng off g n true = .ok s ∧ s.length = n := by
  rw [sampleGroup_replace rng off g n hg]
  exact ⟨_, rfl, by simp⟩

theorem pickSeq_length (rng : ℕ → ℕ) :
    ∀ (n : ℕ) (off : ℕ) (avail : List ℕ),
      (pickSeq rng off n avail).length = min n avail.length := by
  intro n
  induction n with
  | zero =>
    intro off avail
    simp [pickSeq]
  | succ n ih =>
    intro off avail
    rcases avail with _ | ⟨a, tl⟩
    · simp [pickSeq]
    · rw [pickSeq]
      simp only [List.length_cons]
      have hidx : rng off % (tl.length + 1) < (a :: tl).length := by
        simp only [List.length_cons]
        exact Nat.mod_lt _ (Nat.succ_pos _)
      rw [ih, List.length_eraseIdx_of_lt hidx]
      simp only [List.length_cons]
      omega

theorem npChoice_ok_length (rng : ℕ → ℕ) (off m n : ℕ) (rep : Bool)
    (locs : List ℕ) (h : npChoice rng off m n rep = .ok locs) :
    locs.length = n := by
  unfold npChoice at h
  split at h
  · simp at h
  · rename_i h1
    split at h
    · simp at h
    · rename_i h2
      split at h
      · have h4 := Except.ok.inj h
        rw [← h4]
        simp
      · rename_i h3
        have h4 := Except.ok.inj h
        rw [← h4, pickSeq_length]
        simp only [List.length_range]
        rw [Bool.not_eq_true] at h3
        have h5 : ¬ m < n := fun hc => h2 ⟨h3, hc⟩
        omega

theorem sampleGroup_ok_length (rng : ℕ → ℕ) (off : ℕ) (g : List GeoRecord)
    (n : ℕ) (rep : Bool) (s : List GeoRecord)
    (h : sampleGroup rng off g n rep = .ok s) : s.length = n := by
  unfold sampleGroup at h
  rcases hc : npChoice rng off g.length n rep with e | locs
  · rw [hc] at h
    simp at h
  · rw [hc] at h
    dsimp only at h
    rw [Except.ok.injEq] at h
    rw [← h, List.length_map]
    exact npChoice_ok_length rng off g.length n rep locs hc

theorem sampleGroups_ok (rng : ℕ → ℕ) (n : ℕ) (rep : Bool) :
    ∀ (gs : List (List GeoRecord)) (off : ℕ) (dfs : List (List GeoRecord)),
      sampleGroups rng n rep gs off = .ok dfs →
      dfs.length = gs.length ∧ ∀ s ∈ dfs, s.length = n := by
  intro gs
  induction gs with
  | nil =>
    intro off dfs h
    rw [sampleGroups] at h
    have h4 := Except.ok.inj h
    rw [← h4]
    simp
  | cons g gs ih =>
    intro off dfs h
    rw [sampleGroups] at h
    rcases hs : sampleGroup rng off g n rep with e | s
    · rw [hs] at h
      simp at h
    · rw [hs] at h
      rcases hrest : sampleGroups rng n rep gs (off + n) with e | rest
      · rw [hrest] at h
        simp at h
      · rw [hrest] at h
        dsimp only at h
        have h4 := Except.ok.inj h
        rw [← h4]
        obtain ⟨ih1, ih2⟩ := ih (off + n) rest hrest
        refine ⟨by simp [ih1], ?_⟩
        intro t ht
        rcases List.mem_cons.mp ht with rfl | ht2
        · exact sampleGroup_ok_length rng off g n rep t hs
        · exact ih2 t ht2

theorem flatten_length_const {n : ℕ} :
    ∀ (dfs : List (List GeoRecord)), (∀ s ∈ dfs, s.length = n) →
      dfs.flatten.length = dfs.length * n := by
  intro dfs
  induction dfs with
  | nil =>
    intro _
    simp
  | cons s tl ih =>
    intro h
    rw [List.flatten_cons, List.length_append,
      ih (fun t ht => h t (List.mem_cons_of_mem _ ht)),
      h s (List.mem_cons_self _ _)]
    simp only [List.length_cons]
    ring

/- ### Structural facts about the two entry points -/

theorem filter_fields_cols {ftk : List String} {gdf g : GeoFrame}
    (h : filter_fields ftk gdf = .ok g) : g.cols = GEOMETRY :: ftk := by
  simp only [filter_fields] at h
  split at h
  · simp at h
  · cases h
    rfl

theorem resample_value_ok_shape (rng : ℕ → ℕ) (gdf : GeoFrame) (tf : String)
    (bins : ℤ) (ftk : List String) (rep : Bool) (os : Option ℕ) (out : RunResult)
    (h : resample_shapefile rng gdf tf bins ftk rep os = .ok out) :
    out.emptyBins = [] ∧ out.recs.Sorted recIdxLe := by
  simp only [resample_shapefile] at h
  repeat' split at h
  any_goals simp at h
  subst h
  exact ⟨rfl, List.sorted_insertionSort recIdxLe _⟩

theorem resample_value_zero_bins (rng : ℕ → ℕ) (gdf : GeoFrame) (tf : String)
    (ftk : List String) (rep : Bool) (os : Option ℕ) (g : GeoFrame)
    (hfil : filter_fields ftk gdf = .ok g) (htf : tf ∈ g.cols) :
    resample_shapefile rng gdf tf 0 ftk rep os = .error .zeroDivision := by
  have hedges : valueModeEdges g tf 0 =
      [getScore (sortedUnique (valueModeTarget g tf)) 0] := rfl
  simp only [resample_shapefile, hfil]
  rw [if_pos htf, if_neg (by decide), hedges, binsToCutsVec_singleton]
  dsimp only
  rw [if_pos trivial]

theorem resample_value_keyError (rng : ℕ → ℕ) (gdf : GeoFrame) (tf : String)
    (bins : ℤ) (ftk : List String) (rep : Bool) (os : Option ℕ) (g : GeoFrame)
    (hfil : filter_fields ftk gdf = .ok g) (hgeo : tf ≠ GEOMETRY)
    (hftk : tf ∉ ftk) :
    resample_shapefile rng gdf tf bins ftk rep os = .error (.keyError tf) := by
  simp only [resample_shapefile, hfil]
  rw [if_neg]
  rw [filter_fields_cols hfil]
  simp [hgeo, hftk]

theorem resample_value_ok_length (rng : ℕ → ℕ) (gdf : GeoFrame) (tf : String)
    (bins : ℤ) (ftk : List String) (rep : Bool) (os : Option ℕ)
    (out : RunResult) (g : GeoFrame) (hfil : filter_fields ftk gdf = .ok g)
    (h : resample_shapefile rng gdf tf bins ftk rep os = .ok out) :
    out.recs.length = (valueModeGroups g tf bins).length *
      (totalSamples os g.recs.length / bins.toNat) := by
  simp only [resample_shapefile, hfil] at h
  by_cases h1 : tf ∈ g.cols
  · rw [if_pos h1] at h
    by_cases h2 : bins + 1 < 0
    · rw [if_pos h2] at h
      simp at h
    · rw [if_neg h2] at h
      rcases h3 : binsToCutsVec (valueModeEdges g tf bins) (valueModeTarget g tf)
        with e | lbl
      · rw [h3] at h
        simp at h
      · rw [h3] at h
        dsimp only at h
        by_cases h4 : bins = 0
        · rw [if_pos h4] at h
          simp at h
        · rw [if_neg h4] at h
          by_cases h5 : valueModeGroups g tf bins = []
          · rw [if_pos h5] at h
            simp at h
          · rw [if_neg h5] at h
            rcases h6 : sampleGroups rng (totalSamples os g.recs.length / bins.toNat)
                rep (valueModeGroups g tf bins) 0 with e | dfs
            · rw [h6] at h
              simp at h
            · rw [h6] at h
              dsimp only at h
              have hout : RunResult.mk ((dfs.flatten).insertionSort recIdxLe) [] = out :=
                Except.ok.inj h
              rw [← hout]
              obtain ⟨hl1, hl2⟩ := sampleGroups_ok rng _ rep _ 0 dfs h6
              dsimp only
              rw [(List.perm_insertionSort recIdxLe dfs.flatten).length_eq,
                flatten_length_const dfs hl2, hl1]
  · rw [if_neg h1] at h
    simp at h

/- ### Facts about the spatial path -/

theorem spatialLoop_log (rng : ℕ → ℕ) (n : ℕ) (rep : Bool)
    (recs : List GeoRecord) :
    ∀ (ps : List Rect) (off : ℕ) (dfs : List (List GeoRecord)) (lg : List Rect),
      spatialLoop rng n rep recs ps off = .ok (dfs, lg) →
      lg = ps.filter (fun p => (recs.filter (fun r => withinRect r.pt p)).isEmpty) ∧
      dfs.length =
        (ps.filter (fun p => !(recs.filter (fun r => withinRect r.pt p)).isEmpty)).length := by
  intro ps
  induction ps with
  | nil =>
    intro off dfs lg h
    rw [spatialLoop] at h
    simp at h
    obtain ⟨h1, h2⟩ := h
    subst h1
    subst h2
    simp
  | cons p ps ih =>
    intro off dfs lg h
    rw [spatialLoop] at h
    by_cases hemp : ((recs.filter (fun r => withinRect r.pt p)).isEmpty = true)
    · rw [if_pos hemp] at h
      rcases hrec : spatialLoop rng n rep recs ps off with e | pr
      · rw [hrec] at h
        simp at h
      · obtain ⟨dfs2, lg2⟩ := pr
        rw [hrec] at h
        simp at h
        obtain ⟨h1, h2⟩ := h
        subst h1
        subst h2
        obtain ⟨ih1, ih2⟩ := ih off dfs2 lg2 hrec
        constructor
        · simp [List.filter_cons, hemp, ih1]
        · simp [List.filter_cons, hemp, ih2]
    · rw [if_neg hemp] at h
      rcases hsamp : sampleGroup rng off (recs.filter (fun r => withinRect r.pt p)) n rep
        with e | s
      · rw [hsamp] at h
        simp at h
      · rw [hsamp] at h
        rcases hrec : spatialLoop rng n rep recs ps (off + n) with e | pr
        · rw [hrec] at h
          simp at h
        · obtain ⟨dfs2, lg2⟩ := pr
          rw [hrec] at h
          simp at h
          obtain ⟨h1, h2⟩ := h
          subst h1
          subst h2
          obtain ⟨ih1, ih2⟩ := ih (off + n) dfs2 lg2 hrec
          constructor
          · simp [List.filter_cons, hemp, ih1]
          · simp [List.filter_cons, hemp, ih2]

theorem spatialLoop_ok_lengths (rng : ℕ → ℕ) (n : ℕ) (rep : Bool)
    (recs : List GeoRecord) :
    ∀ (ps : List Rect) (off : ℕ) (dfs : List (List GeoRecord)) (lg : List Rect),
      spatialLoop rng n rep recs ps off = .ok (dfs, lg) →
      ∀ s ∈ dfs, s.length = n := by
  intro ps
  induction ps with
  | nil =>
    intro off dfs lg h
    rw [spatialLoop] at h
    simp at h
    obtain ⟨h1, h2⟩ := h
    subst h1
    simp
  | cons p ps ih =>
    intro off dfs lg h
    rw [spatialLoop] at h
    by_cases hemp : ((recs.filter (fun r => withinRect r.pt p)).isEmpty = true)
    · rw [if_pos hemp] at h
      rcases hrec : spatialLoop rng n rep recs ps off with e | pr
      · rw [hrec] at h
        simp at h
      · obtain ⟨dfs2, lg2⟩ := pr
        rw [hrec] at h
        simp at h
        obtain ⟨h1, h2⟩ := h
        subst h1
        exact ih off dfs2 lg2 hrec
    · rw [if_neg hemp] at h
      rcases hsamp : sampleGroup rng off (recs.filter (fun r => withinRect r.pt p)) n rep
        with e | s
      · rw [hsamp] at h
        simp at h
      · rw [hsamp] at h
        rcases hrec : spatialLoop rng n rep recs ps (off + n) with e | pr
        · rw [hrec] at h
          simp at h
        · obtain ⟨dfs2, lg2⟩ := pr
          rw [hrec] at h
          simp at h
          obtain ⟨h1, h2⟩ := h
          subst h1
          intro t ht
          rcases List.mem_cons.mp ht with rfl | ht2
          · exact sampleGroup_ok_length rng off _ n rep t hsamp
          · exact ih (off + n) dfs2 lg2 hrec t ht2

theorem spatialLoop_replace_total (rng : ℕ → ℕ) (n : ℕ) (recs : List GeoRecord) :
    ∀ (ps : List Rect) (off : ℕ), ∃ dfs lg,
      spatialLoop rng n true recs ps off = .ok (dfs, lg) ∧
      ∀ s ∈ dfs, s.length = n := by
  intro ps
  induction ps with
  | nil =>
    intro off
    exact ⟨[], [], rfl, by simp⟩
  | cons p ps ih =>
    intro off
    rw [spatialLoop]
    by_cases hemp : ((recs.filter (fun r => withinRect r.pt p)).isEmpty = true)
    · rw [if_pos hemp]
      obtain ⟨dfs, lg, hrec, hlen⟩ := ih off
      rw [hrec]
      exact ⟨dfs, p :: lg, rfl, hlen⟩
    · rw [if_neg hemp]
      have hne : recs.filter (fun r => withinRect r.pt p) ≠ [] := by
        intro hc
        rw [hc] at hemp
        exact hemp rfl
      obtain ⟨s, hs, hslen⟩ := sampleGroup_replace_length rng off _ n hne
      rw [hs]
      obtain ⟨dfs, lg, hrec, hlen⟩ := ih (off + n)
      rw [hrec]
      refine ⟨s :: dfs, lg, rfl, ?_⟩
      intro t ht
      rcases List.mem_cons.mp ht with rfl | ht2
      · exact hslen
      · exact hlen t ht2

theorem resample_spatial_ok_log (rng : ℕ → ℕ) (gdf : GeoFrame) (rows cols : ℤ)
    (ftk : List String) (rep : Bool) (os : Option ℕ) (out : RunResult)
    (g : GeoFrame) (hfil : filter_fields ftk gdf = .ok g)
    (h : resample_shapefile_spatially rng gdf rows cols ftk rep os = .ok out) :
    out.emptyBins = (spatialGridOf g rows cols).filter
      (fun p => (g.recs.filter (fun r => withinRect r.pt p)).isEmpty) := by
  simp only [resample_shapefile_spatially, hfil] at h
  by_cases h1 : (rows + 1 < 0 ∨ cols + 1 < 0)
  · rw [if_pos h1] at h
    simp at h
  · rw [if_neg h1] at h
    by_cases h2 : (spatialGridOf g rows cols).length = 0
    · rw [if_pos h2] at h
      simp at h
    · rw [if_neg h2] at h
      rcases hloop : spatialLoop rng
          (totalSamples os g.recs.length / (spatialGridOf g rows cols).length) rep g.recs
          (spatialGridOf g rows cols) 0 with e | pr
      · rw [hloop] at h
        simp at h
      · obtain ⟨dfs, lg⟩ := pr
        rw [hloop] at h
        dsimp only at h
        by_cases h3 : dfs = []
        · rw [h3] at h hloop
          simp at h
        · rw [if_neg h3] at h
          have hout : RunResult.mk dfs.flatten lg = out := Except.ok.inj h
          subst hout
          exact (spatialLoop_log rng _ rep g.recs _ 0 dfs lg hloop).1

theorem flatMap_const_nil {α β : Type} (l : List α) :
    l.flatMap (fun _ => ([] : List β)) = [] := by
  induction l with
  | nil => rfl
  | cons a tl ih => simp [List.flatMap_cons, ih]

theorem gridCells_y_singleton (xg : List ℚ) (c : ℚ) : gridCells xg [c] = [] := by
  unfold gridCells
  simp

theorem spatialGridOf_zero_rows (g : GeoFrame) (cols : ℤ) :
    spatialGridOf g 0 cols = [] := by
  unfold spatialGridOf
  have h : linspaceQ (total_bounds g.recs).2.1 (total_bounds g.recs).2.2.2
      ((0 : ℤ) + 1).toNat = [(total_bounds g.recs).2.1] := by
    rw [show ((0 : ℤ) + 1).toNat = 1 from rfl, linspaceQ, if_pos rfl]
  rw [h]
  exact gridCells_y_singleton _ _

theorem resample_spatial_zero_rows (rng : ℕ → ℕ) (gdf : GeoFrame) (cols : ℤ)
    (hc : 0 ≤ cols) (ftk : List String) (rep : Bool) (os : Option ℕ)
    (g : GeoFrame) (hfil : filter_fields ftk gdf = .ok g) :
    resample_shapefile_spatially rng gdf 0 cols ftk rep os =
      .error .zeroDivision := by
  simp only [resample_shapefile_spatially, hfil]
  rw [if_neg (by omega)]
  rw [spatialGridOf_zero_rows]
  rfl

theorem linspaceQ_length (a b : ℚ) (num : ℕ) : (linspaceQ a b num).length = num := by
  unfold linspaceQ
  split
  · simp [*]
  · simp

theorem linspaceQ_sorted (a b : ℚ) (num : ℕ) (hab : a ≤ b) :
    (linspaceQ a b num).Sorted (fun x y => x ≤ y) := by
  rcases num with _ | _ | n
  · simp [linspaceQ]
  · rw [linspaceQ, if_pos rfl]
    exact List.sorted_singleton _
  · rw [linspaceQ, if_neg (by omega)]
    rw [List.Sorted, List.pairwise_iff_getElem]
    intro i j hi hj hij
    simp only [List.getElem_map, List.getElem_range]
    simp only [List.length_map, List.length_range] at hi hj
    have hden : (0 : ℚ) < ((n + 2 : ℕ) : ℚ) - 1 := by push_cast; linarith
    have h5 : (i : ℚ) ≤ (j : ℚ) := by exact_mod_cast le_of_lt hij
    have hkey : a + (j : ℚ) * (b - a) / (((n + 2 : ℕ) : ℚ) - 1) -
        (a + (i : ℚ) * (b - a) / (((n + 2 : ℕ) : ℚ) - 1)) =
        ((j : ℚ) - (i : ℚ)) * (b - a) / (((n + 2 : ℕ) : ℚ) - 1) := by ring
    have hnn : 0 ≤ ((j : ℚ) - (i : ℚ)) * (b - a) / (((n + 2 : ℕ) : ℚ) - 1) :=
      div_nonneg (mul_nonneg (by linarith) (by linarith)) (le_of_lt hden)
    linarith

theorem linspaceQ_getD_zero (a b : ℚ) (num : ℕ) (h : 1 ≤ num) :
    (linspaceQ a b num).getD 0 0 = a := by
  rcases num with _ | _ | n
  · omega
  · rw [linspaceQ, if_pos rfl]
    rfl
  · rw [linspaceQ, if_neg (by omega), List.range_succ_eq_map]
    simp

theorem linspaceQ_getD_last (a b : ℚ) (num : ℕ) (h : 2 ≤ num) :
    (linspaceQ a b num).getD (num - 1) 0 = b := by
  obtain ⟨n, rfl⟩ : ∃ n, num = n + 2 := ⟨num - 2, by omega⟩
  rw [linspaceQ, if_neg (by omega)]
  rw [show n + 2 - 1 = n + 1 from rfl]
  rw [List.getD_eq_getElem _ 0 (by simp)]
  simp only [List.getElem_map, List.getElem_range]
  have hcast : ((n + 2 : ℕ) : ℚ) - 1 = (n : ℚ) + 1 := by push_cast; ring
  have hcast2 : ((n + 1 : ℕ) : ℚ) = (n : ℚ) + 1 := by push_cast; ring
  rw [hcast, hcast2]
  have hne2 : (n : ℚ) + 1 ≠ 0 := by positivity
  field_simp

theorem sorted_consec_cover (x : ℚ) :
    ∀ (l : List ℚ), l.Sorted (fun p q => p ≤ q) → 2 ≤ l.length →
      l.getD 0 0 ≤ x → x ≤ l.getD (l.length - 1) 0 →
      ∃ k, k + 1 < l.length ∧ l.getD k 0 ≤ x ∧ x ≤ l.getD (k + 1) 0 := by
  intro l
  induction l with
  | nil =>
    intro _ h2
    simp at h2
  | cons a tl ih =>
    intro hs h2 hlo hhi
    rcases tl with _ | ⟨c, tl2⟩
    · simp at h2
    · by_cases hxc : x ≤ c
      · exact ⟨0, by simp, hlo, hxc⟩
      · have hs2 : (c :: tl2).Sorted (fun p q => p ≤ q) := hs.of_cons
        have h22 : 2 ≤ (c :: tl2).length := by
          rcases tl2 with _ | _
          · exfalso
            apply hxc
            simpa using hhi
          · simp
        have hlo2 : (c :: tl2).getD 0 0 ≤ x := le_of_lt (not_le.mp hxc)
        have hhi2 : x ≤ (c :: tl2).getD ((c :: tl2).length - 1) 0 := by
          simpa using hhi
        obtain ⟨k, hk1, hk2, hk3⟩ := ih hs2 h22 hlo2 hhi2
        exact ⟨k + 1, by simpa using hk1, by simpa using hk2, by simpa using hk3⟩

theorem flatMap_map_length {α β γ : Type} (l : List α) (m : List β) (g : α → β → γ) :
    (l.flatMap (fun a => m.map (g a))).length = l.length * m.length := by
  induction l with
  | nil => simp
  | cons a tl ih =>
    simp only [List.flatMap_cons, List.length_append, List.length_map, ih,
      List.length_cons]
    ring

theorem buildGrid_length (minx maxx miny maxy : ℚ) (rows cols : ℕ) :
    (buildGrid minx maxx miny maxy rows cols).length = rows * cols := by
  unfold buildGrid gridCells
  rw [flatMap_map_length, List.length_zip, List.length_tail, linspaceQ_length,
    List.length_zip, List.length_tail, linspaceQ_length]
  rw [Nat.min_eq_right (by omega), Nat.min_eq_right (by omega)]
  simp [Nat.mul_comm]

theorem spatialGridOf_length (g : GeoFrame) (rows cols : ℤ) (hr : 0 ≤ rows)
    (hc : 0 ≤ cols) :
    (spatialGridOf g rows cols).length = rows.toNat * cols.toNat := by
  unfold spatialGridOf gridCells
  rw [flatMap_map_length, List.length_zip, List.length_tail, linspaceQ_length,
    List.length_zip, List.length_tail, linspaceQ_length]
  rw [show (cols + 1).toNat = cols.toNat + 1 by omega,
    show (rows + 1).toNat = rows.toNat + 1 by omega]
  rw [Nat.min_eq_right (by omega), Nat.min_eq_right (by omega)]
  simp [Nat.mul_comm]

theorem resample_spatial_ok_length (rng : ℕ → ℕ) (gdf : GeoFrame)
    (rows cols : ℤ) (ftk : List String) (rep : Bool) (os : Option ℕ)
    (out : RunResult) (g : GeoFrame) (hfil : filter_fields ftk gdf = .ok g)
    (hr : 0 ≤ rows) (hc : 0 ≤ cols)
    (h : resample_shapefile_spatially rng gdf rows cols ftk rep os = .ok out) :
    out.recs.length =
      ((spatialGridOf g rows cols).filter
        (fun p => !(g.recs.filter (fun r => withinRect r.pt p)).isEmpty)).length *
      (totalSamples os g.recs.length / (rows.toNat * cols.toNat)) := by
  simp only [resample_shapefile_spatially, hfil] at h
  by_cases h1 : (rows + 1 < 0 ∨ cols + 1 < 0)
  · rw [if_pos h1] at h
    simp at h
  · rw [if_neg h1] at h
    by_cases h2 : (spatialGridOf g rows cols).length = 0
    · rw [if_pos h2] at h
      simp at h
    · rw [if_neg h2] at h
      rcases hloop : spatialLoop rng
          (totalSamples os g.recs.length / (spatialGridOf g rows cols).length) rep g.recs
          (spatialGridOf g rows cols) 0 with e | pr
      · rw [hloop] at h
        simp at h
      · obtain ⟨dfs, lg⟩ := pr
        rw [hloop] at h
        dsimp only at h
        by_cases h3 : dfs = []
        · rw [h3] at h hloop
          simp at h
        · rw [if_neg h3] at h
          have hout : RunResult.mk dfs.flatten lg = out := Except.ok.inj h
          rw [← hout]
          have hlog := spatialLoop_log rng _ rep g.recs _ 0 dfs lg hloop
          have hlens := spatialLoop_ok_lengths rng _ rep g.recs _ 0 dfs lg hloop
          dsimp only
          rw [flatten_length_const dfs hlens, hlog.2,
            spatialGridOf_length g rows cols hr hc]

theorem flatMap_map_eq {α β γ : Type} (l : List α) (f : α → β) (g : β → List γ) :
    (l.map f).flatMap g = l.flatMap (fun a => g (f a)) := by
  induction l with
  | nil => rfl
  | cons a tl ih => simp [List.flatMap_cons, ih]

theorem zip_tail_eq_range_map :
    ∀ (l : List ℚ), l.zip l.tail =
      (List.range (l.length - 1)).map (fun k => (l.getD k 0, l.getD (k + 1) 0)) := by
  intro l
  induction l with
  | nil => rfl
  | cons a tl ih =>
    rcases tl with _ | ⟨b, tl2⟩
    · rfl
    · rw [show (a :: b :: tl2).zip (a :: b :: tl2).tail =
        (a, b) :: ((b :: tl2).zip (b :: tl2).tail) from rfl, ih]
      rw [show (a :: b :: tl2).length - 1 = tl2.length + 1 by simp]
      rw [show (b :: tl2).length - 1 = tl2.length by simp]
      rw [List.range_succ_eq_map, List.map_cons, List.map_map]
      congr 1

theorem buildGrid_enumeration (minx maxx miny maxy : ℚ) (rows cols : ℕ) :
    buildGrid minx maxx miny maxy rows cols =
      (List.range cols).flatMap (fun k => (List.range rows).map (fun j =>
        (⟨(linspaceQ minx maxx (cols + 1)).getD k 0,
          (linspaceQ minx maxx (cols + 1)).getD (k + 1) 0,
          (linspaceQ miny maxy (rows + 1)).getD j 0,
          (linspaceQ miny maxy (rows + 1)).getD (j + 1) 0⟩ : Rect))) := by
  unfold buildGrid gridCells
  rw [zip_tail_eq_range_map (linspaceQ minx maxx (cols + 1)),
    zip_tail_eq_range_map (linspaceQ miny maxy (rows + 1)),
    linspaceQ_length, linspaceQ_length]
  simp only [Nat.add_sub_cancel]
  rw [flatMap_map_eq]
  simp only [List.map_map]
  rfl

theorem zip_tail_mem_elim {l : List ℚ} {xp : ℚ × ℚ} (h : xp ∈ l.zip l.tail) :
    ∃ k, k + 1 < l.length ∧ xp = (l.getD k 0, l.getD (k + 1) 0) := by
  obtain ⟨k, hk, hval⟩ := List.mem_iff_getElem.mp h
  rw [List.length_zip, List.length_tail] at hk
  have hk1 : k + 1 < l.length := by omega
  refine ⟨k, hk1, ?_⟩
  rw [← hval, List.getElem_zip, List.getElem_tail]
  rw [List.getD_eq_getElem _ 0 (by omega), List.getD_eq_getElem _ 0 hk1]

theorem zip_tail_mem_of {l : List ℚ} {k : ℕ} (hk : k + 1 < l.length) :
    (l.getD k 0, l.getD (k + 1) 0) ∈ l.zip l.tail := by
  rw [List.mem_iff_getElem]
  refine ⟨k, by rw [List.length_zip, List.length_tail]; omega, ?_⟩
  rw [List.getElem_zip, List.getElem_tail]
  rw [List.getD_eq_getElem _ 0 (by omega), List.getD_eq_getElem _ 0 hk]

theorem gridCells_mem_of (xg yg : List ℚ) (xp yp : ℚ × ℚ)
    (hx : xp ∈ xg.zip xg.tail) (hy : yp ∈ yg.zip yg.tail) :
    (⟨xp.1, xp.2, yp.1, yp.2⟩ : Rect) ∈ gridCells xg yg := by
  unfold gridCells
  exact List.mem_flatMap_of_mem hx (List.mem_map_of_mem _ hy)

theorem gridCells_mem_elim {xg yg : List ℚ} {c : Rect} (h : c ∈ gridCells xg yg) :
    ∃ xp, xp ∈ xg.zip xg.tail ∧ ∃ yp, yp ∈ yg.zip yg.tail ∧
      c = ⟨xp.1, xp.2, yp.1, yp.2⟩ := by
  unfold gridCells at h
  obtain ⟨xp, hxp, hc⟩ := List.mem_flatMap.mp h
  obtain ⟨yp, hyp, rfl⟩ := List.mem_map.mp hc
  exact ⟨xp, hxp, yp, hyp, rfl⟩

theorem buildGrid_cover (minx maxx miny maxy : ℚ) (rows cols : ℕ)
    (hx : minx ≤ maxx) (hy : miny ≤ maxy) (hr : 1 ≤ rows) (hc : 1 ≤ cols)
    (p : ℚ × ℚ) (h1 : minx ≤ p.1) (h2 : p.1 ≤ maxx) (h3 : miny ≤ p.2)
    (h4 : p.2 ≤ maxy) :
    ∃ c ∈ buildGrid minx maxx miny maxy rows cols,
      c.xs ≤ p.1 ∧ p.1 ≤ c.xe ∧ c.ys ≤ p.2 ∧ p.2 ≤ c.ye := by
  have hxlen : (linspaceQ minx maxx (cols + 1)).length = cols + 1 :=
    linspaceQ_length _ _ _
  have hylen : (linspaceQ miny maxy (rows + 1)).length = rows + 1 :=
    linspaceQ_length _ _ _
  obtain ⟨k, hk1, hk2, hk3⟩ := sorted_consec_cover p.1 (linspaceQ minx maxx (cols + 1))
    (linspaceQ_sorted _ _ _ hx) (by omega)
    (by rw [linspaceQ_getD_zero _ _ _ (by omega)]; exact h1)
    (by rw [hxlen, show cols + 1 - 1 = (cols + 1) - 1 from rfl,
      linspaceQ_getD_last _ _ _ (by omega)]; exact h2)
  obtain ⟨j, hj1, hj2, hj3⟩ := sorted_consec_cover p.2 (linspaceQ miny maxy (rows + 1))
    (linspaceQ_sorted _ _ _ hy) (by omega)
    (by rw [linspaceQ_getD_zero _ _ _ (by omega)]; exact h3)
    (by rw [hylen, show rows + 1 - 1 = (rows + 1) - 1 from rfl,
      linspaceQ_getD_last _ _ _ (by omega)]; exact h4)
  refine ⟨⟨(linspaceQ minx maxx (cols + 1)).getD k 0,
          (linspaceQ minx maxx (cols + 1)).getD (k + 1) 0,
          (linspaceQ miny maxy (rows + 1)).getD j 0,
          (linspaceQ miny maxy (rows + 1)).getD (j + 1) 0⟩, ?_, hk2, hk3, hj2, hj3⟩
  exact gridCells_mem_of _ _ _ _ (zip_tail_mem_of hk1) (zip_tail_mem_of hj1)

theorem zip_count_zero (x : ℚ) :
    ∀ (l : List ℚ), l.Sorted (fun p q => p ≤ q) → x ≤ l.getD 0 0 →
      (l.zip l.tail).countP (fun q => decide (q.1 < x) && decide (x < q.2)) = 0 := by
  intro l
  induction l with
  | nil =>
    intro _ _
    rfl
  | cons a tl ih =>
    intro hs hx
    rcases tl with _ | ⟨c, tl2⟩
    · rfl
    · rw [show ((a :: c :: tl2).zip (a :: c :: tl2).tail) =
        (a, c) :: ((c :: tl2).zip (c :: tl2).tail) from rfl]
      rw [List.countP_cons]
      have ha : ¬(a < x) := by
        simp only [List.getD_cons_zero] at hx
        exact not_lt.mpr hx
      have hpred : (decide ((a, c).1 < x) && decide (x < (a, c).2)) = false := by
        simp [ha]
      rw [hpred]
      have hac : a ≤ c := (List.pairwise_cons.mp hs).1 c (by simp)
      have hx2 : x ≤ (c :: tl2).getD 0 0 := by
        simp only [List.getD_cons_zero] at hx ⊢
        linarith
      rw [ih hs.of_cons hx2]
      simp

theorem zip_count_le_one (x : ℚ) :
    ∀ (l : List ℚ), l.Sorted (fun p q => p ≤ q) →
      (l.zip l.tail).countP (fun q => decide (q.1 < x) && decide (x < q.2)) ≤ 1 := by
  intro l
  induction l with
  | nil =>
    intro _
    simp
  | cons a tl ih =>
    intro hs
    rcases tl with _ | ⟨c, tl2⟩
    · simp
    · rw [show ((a :: c :: tl2).zip (a :: c :: tl2).tail) =
        (a, c) :: ((c :: tl2).zip (c :: tl2).tail) from rfl]
      rw [List.countP_cons]
      by_cases hfirst : (decide ((a, c).1 < x) && decide (x < (a, c).2)) = true
      · have hx2 : x ≤ (c :: tl2).getD 0 0 := by
          simp only [Bool.and_eq_true, decide_eq_true_eq] at hfirst
          simp only [List.getD_cons_zero]
          exact le_of_lt hfirst.2
        rw [zip_count_zero x (c :: tl2) hs.of_cons hx2]
        simp [hfirst]
      · rw [Bool.not_eq_true] at hfirst
        rw [hfirst]
        simpa using ih hs.of_cons

theorem countP_grid_aux (p : ℚ × ℚ) (m : List (ℚ × ℚ)) :
    ∀ (l : List (ℚ × ℚ)),
      (l.flatMap (fun xp => m.map
          (fun yp => (⟨xp.1, xp.2, yp.1, yp.2⟩ : Rect)))).countP
        (fun c => withinRect p c) =
      (l.countP (fun q => decide (q.1 < p.1) && decide (p.1 < q.2))) *
        (m.countP (fun q => decide (q.1 < p.2) && decide (p.2 < q.2))) := by
  intro l
  induction l with
  | nil => simp
  | cons xp tl ih =>
    rw [List.flatMap_cons, List.countP_append, ih, List.countP_map]
    by_cases hx : (decide (xp.1 < p.1) && decide (p.1 < xp.2)) = true
    · have hinner : m.countP ((fun c => withinRect p c) ∘
          fun yp => (⟨xp.1, xp.2, yp.1, yp.2⟩ : Rect)) =
          m.countP (fun q => decide (q.1 < p.2) && decide (p.2 < q.2)) := by
        apply List.countP_congr
        intro yp _
        simp only [Bool.and_eq_true, decide_eq_true_eq] at hx
        simp [withinRect, Function.comp, hx.1, hx.2]
      rw [hinner, List.countP_cons, hx, if_pos rfl]
      ring
    · rw [Bool.not_eq_true] at hx
      have hinner : m.countP ((fun c => withinRect p c) ∘
          fun yp => (⟨xp.1, xp.2, yp.1, yp.2⟩ : Rect)) = 0 := by
        rw [List.countP_eq_zero]
        intro yp _
        simp only [Bool.and_eq_false_iff, decide_eq_false_iff_not] at hx
        simp only [withinRect, Function.comp]
        rcases hx with hx1 | hx2
        · simp [hx1]
        · simp [hx2]
      rw [hinner, List.countP_cons, hx, if_neg (by decide)]
      ring

theorem buildGrid_countP_le_one (minx maxx miny maxy : ℚ) (rows cols : ℕ)
    (hx : minx ≤ maxx) (hy : miny ≤ maxy) (p : ℚ × ℚ) :
    (buildGrid minx maxx miny maxy rows cols).countP
      (fun c => withinRect p c) ≤ 1 := by
  unfold buildGrid gridCells
  rw [countP_grid_aux]
  have h1 := zip_count_le_one p.1 (linspaceQ minx maxx (cols + 1))
    (linspaceQ_sorted _ _ _ hx)
  have h2 := zip_count_le_one p.2 (linspaceQ miny maxy (rows + 1))
    (linspaceQ_sorted _ _ _ hy)
  have h3 := Nat.mul_le_mul h1 h2
  simpa using h3

theorem buildGrid_mem_bounds {minx maxx miny maxy : ℚ} {rows cols : ℕ}
    (hx : minx ≤ maxx) (hy : miny ≤ maxy) {c : Rect}
    (h : c ∈ buildGrid minx maxx miny maxy rows cols) :
    minx ≤ c.xs ∧ c.xe ≤ maxx ∧ miny ≤ c.ys ∧ c.ye ≤ maxy := by
  obtain ⟨xp, hxp, yp, hyp, rfl⟩ := gridCells_mem_elim h
  obtain ⟨k, hk1, rfl⟩ := zip_tail_mem_elim hxp
  obtain ⟨j, hj1, rfl⟩ := zip_tail_mem_elim hyp
  dsimp only
  have hxs := linspaceQ_sorted minx maxx (cols + 1) hx
  have hys := linspaceQ_sorted miny maxy (rows + 1) hy
  have hxlen := linspaceQ_length minx maxx (cols + 1)
  have hylen := linspaceQ_length miny maxy (rows + 1)
  rw [hxlen] at hk1
  rw [hylen] at hj1
  refine ⟨?_, ?_, ?_, ?_⟩
  · have h0 : (linspaceQ minx maxx (cols + 1)).getD 0 0 = minx :=
      linspaceQ_getD_zero _ _ _ (by omega)
    have h5 := sorted_getD_le hxs (Nat.zero_le k) (show k < _ by omega)
    rw [h0] at h5
    exact h5
  · have h0 : (linspaceQ minx maxx (cols + 1)).getD (cols + 1 - 1) 0 = maxx :=
      linspaceQ_getD_last _ _ _ (by omega)
    have h5 := sorted_getD_le hxs (show k + 1 ≤ cols + 1 - 1 by omega)
      (show cols + 1 - 1 < (linspaceQ minx maxx (cols + 1)).length by omega)
    rw [h0] at h5
    exact h5
  · have h0 : (linspaceQ miny maxy (rows + 1)).getD 0 0 = miny :=
      linspaceQ_getD_zero _ _ _ (by omega)
    have h5 := sorted_getD_le hys (Nat.zero_le j) (show j < _ by omega)
    rw [h0] at h5
    exact h5
  · have h0 : (linspaceQ miny maxy (rows + 1)).getD (rows + 1 - 1) 0 = maxy :=
      linspaceQ_getD_last _ _ _ (by omega)
    have h5 := sorted_getD_le hys (show j + 1 ≤ rows + 1 - 1 by omega)
      (show rows + 1 - 1 < (linspaceQ miny maxy (rows + 1)).length by omega)
    rw [h0] at h5
    exact h5

theorem buildGrid_boundary_outside {minx maxx miny maxy : ℚ} {rows cols : ℕ}
    (hx : minx ≤ maxx) (hy : miny ≤ maxy) (p : ℚ × ℚ)
    (hp : p.1 = minx ∨ p.1 = maxx ∨ p.2 = miny ∨ p.2 = maxy) :
    ∀ c ∈ buildGrid minx maxx miny maxy rows cols, withinRect p c = false := by
  intro c hc
  obtain ⟨hb1, hb2, hb3, hb4⟩ := buildGrid_mem_bounds hx hy hc
  unfold withinRect
  rcases hp with h | h | h | h
  · have h5 : ¬(c.xs < p.1) := by
      rw [h]
      exact not_lt.mpr hb1
    simp [h5]
  · have h5 : ¬(p.1 < c.xe) := by
      rw [h]
      exact not_lt.mpr hb2
    simp [h5]
  · have h5 : ¬(c.ys < p.2) := by
      rw [h]
      exact not_lt.mpr hb3
    simp [h5]
  · have h5 : ¬(p.2 < c.ye) := by
      rw [h]
      exact not_lt.mpr hb4
    simp [h5]

/- ### Claim theorems -/

/-- C1 counterexample: the claim asserts the reference behavior is to clamp an
oversized without-replacement draw silently to the bin's population.  It is
not: on a bin of two records with quota 3 and `replace=False`, `gr.sample`
raises (pandas ValueError, the insufficient-samples condition) instead of
returning the clamped two-record sample. -/
theorem C1_counterexample :
    sampleGroup rngZero 0 [⟨0, [], (0, 0)⟩, ⟨1, [], (0, 0)⟩] 3 false =
      .error .insufficientSamples ∧
    (Except.error Err.insufficientSamples : Except Err (List GeoRecord)) ≠
      .ok [⟨0, [], (0, 0)⟩, ⟨1, [], (0, 0)⟩] :=
  ⟨by decide, by decide⟩

/-- C1 (amended): for every non-empty bin whose per-bin quota exceeds the
bin's population, sampling with `replace=False` fails with the
insufficient-samples error (pandas ValueError); it never clamps and never
fails with any other error. -/
theorem C1_without_replacement (rng : ℕ → ℕ) (off : ℕ) (g : List GeoRecord)
    (n : ℕ) (hg : g ≠ []) (hn : g.length < n) :
    sampleGroup rng off g n false = .error .insufficientSamples :=
  sampleGroup_insufficient rng off g n hg hn

/-- C1 witness: the amended theorem applied to a concrete two-record bin with
quota 3. -/
theorem C1_without_replacement_witness :
    ([⟨0, [], (0, 0)⟩, ⟨1, [], (0, 0)⟩] : List GeoRecord) ≠ [] ∧
    ([⟨0, [], (0, 0)⟩, ⟨1, [], (0, 0)⟩] : List GeoRecord).length < 3 ∧
    sampleGroup rngZero 7 [⟨0, [], (0, 0)⟩, ⟨1, [], (0, 0)⟩] 3 false =
      .error .insufficientSamples :=
  ⟨by decide, by decide,
   C1_without_replacement rngZero 7 _ 3 (by decide) (by decide)⟩

/-- C2: the per-bin quota of every resampling call, in both modes, is
`total_desired // declared_bin_count` (floor division; the shortfall is
dropped, not redistributed).  First conjunct, universal over every value-mode
call: every successful run (any dataset, stream, bin count, replace flag)
outputs exactly `(number of non-empty bins) * (total_samples // bins)`
records — each sampled group draws exactly the quota `total_samples // bins`,
where `bins` is the declared count.  Second conjunct, universal over every
spatial call: every successful run outputs exactly
`(number of non-empty cells) * (total_samples // (rows * cols))` records.
Third conjunct: the declared denominator of the spatial mode,
`len(polygons)`, equals `rows * cols` for every dataset.  Fourth-to-sixth
conjuncts: the claim's scenario — 4 non-empty bins of 10 records each,
`output_samples = 39`, quota `39 // 4 = 9` per bin, total output 36, with
bins 0 and 3 each contributing exactly 9 records.  Seventh conjunct: the
denominator is the declared bin count, not the non-empty count — on values
[1,2,2] with `bins = 3` (only 2 non-empty bins) and `output_samples = 6` the
quota is `6 // 3 = 2` and the output has `2 * 2 = 4` records, not
`2 * (6 // 2) = 6`. -/
theorem C2_quota_floor :
    (∀ (rng : ℕ → ℕ) (gdf : GeoFrame) (tf : String) (bins : ℤ)
        (ftk : List String) (rep : Bool) (os : Option ℕ) (out : RunResult)
        (g : GeoFrame), filter_fields ftk gdf = .ok g →
      resample_shapefile rng gdf tf bins ftk rep os = .ok out →
      out.recs.length = (valueModeGroups g tf bins).length *
        (totalSamples os g.recs.length / bins.toNat)) ∧
    (∀ (rng : ℕ → ℕ) (gdf : GeoFrame) (rows cols : ℤ) (ftk : List String)
        (rep : Bool) (os : Option ℕ) (out : RunResult) (g : GeoFrame),
      filter_fields ftk gdf = .ok g → 0 ≤ rows → 0 ≤ cols →
      resample_shapefile_spatially rng gdf rows cols ftk rep os = .ok out →
      out.recs.length =
        ((spatialGridOf g rows cols).filter
          (fun p => !(g.recs.filter (fun r => withinRect r.pt p)).isEmpty)).length *
        (totalSamples os g.recs.length / (rows.toNat * cols.toNat))) ∧
    (∀ (g : GeoFrame) (rows cols : ℤ), 0 ≤ rows → 0 ≤ cols →
      (spatialGridOf g rows cols).length = rows.toNat * cols.toNat) ∧
    (resample_shapefile rngZero frameB "v" 4 ["v"] true (some 39)).map
      (fun o => o.recs.length) = .ok 36 ∧
    (resample_shapefile rngZero frameB "v" 4 ["v"] true (some 39)).map
      (fun o => o.recs.countP (fun r => r.idx = 0)) = .ok 9 ∧
    (resample_shapefile rngZero frameB "v" 4 ["v"] true (some 39)).map
      (fun o => o.recs.countP (fun r => r.idx = 30)) = .ok 9 ∧
    (resample_shapefile rngZero frameA "v" 3 ["v"] true (some 6)).map
      (fun o => o.recs.length) = .ok 4 :=
  ⟨fun rng gdf tf bins ftk rep os out g hfil h =>
      resample_value_ok_length rng gdf tf bins ftk rep os out g hfil h,
   fun rng gdf rows cols ftk rep os out g hfil hr hc h =>
      resample_spatial_ok_length rng gdf rows cols ftk rep os out g hfil hr hc h,
   fun g rows cols hr hc => spatialGridOf_length g rows cols hr hc,
   by decide, by decide, by decide, by decide⟩

/-- C2 witness: the universal quota clauses applied to the concrete runs — the
value-mode run on frameA (2 non-empty bins, quota `3 // 3 = 1`, output 2),
the spatial run on frameC (2 non-empty cells of the 2*2 grid, quota
`4 // 4 = 1`, output 2), and the grid-size identity on frameC's 2*2 grid. -/
theorem C2_quota_floor_witness :
    (filter_fields ["v"] frameA = .ok frameA ∧
      resample_shapefile rngZero frameA "v" 3 ["v"] true none = .ok outA ∧
      outA.recs.length = (valueModeGroups frameA "v" 3).length *
        (totalSamples none frameA.recs.length / (3 : ℤ).toNat)) ∧
    (filter_fields [] frameC = .ok frameC ∧ (0 : ℤ) ≤ 2 ∧
      resample_shapefile_spatially rngZero frameC 2 2 [] true none = .ok outC ∧
      outC.recs.length =
        ((spatialGridOf frameC 2 2).filter
          (fun p => !(frameC.recs.filter (fun r => withinRect r.pt p)).isEmpty)).length *
        (totalSamples none frameC.recs.length / ((2 : ℤ).toNat * (2 : ℤ).toNat))) ∧
    (spatialGridOf frameC 2 2).length = (2 : ℤ).toNat * (2 : ℤ).toNat :=
  ⟨⟨by decide, by decide,
    C2_quota_floor.1 rngZero frameA "v" 3 ["v"] true none outA frameA
      (by decide) (by decide)⟩,
   ⟨by decide, by decide, by decide,
    C2_quota_floor.2.1 rngZero frameC 2 2 [] true none outC frameC
      (by decide) (by decide) (by decide) (by decide)⟩,
   C2_quota_floor.2.2.1 frameC 2 2 (by decide) (by decide)⟩

/-- C3 counterexample: the claim asserts a record on a boundary shared by
several cells is assigned to exactly one cell (the first in enumeration
order).  On the bounding box [0,10] x [0,10] with rows = cols = 2, the point
(5,5) on the shared corner of all four cells is strictly inside none of them
(shapely `within` tests interior membership), so it is assigned to zero
cells, not one. -/
theorem C3_counterexample :
    (buildGrid 0 10 0 10 2 2).length = 4 ∧
    (buildGrid 0 10 0 10 2 2).countP (fun c => withinRect (5, 5) c) = 0 ∧
    ¬((buildGrid 0 10 0 10 2 2).countP (fun c => withinRect (5, 5) c) = 1) :=
  ⟨by decide, by decide, by decide⟩

/-- C3 (amended): the grid builder produces `rows * cols` rectangular cells
whose closed extents tile the bounding box: every point of the box lies in
the closed extent of some cell, no point lies strictly inside two cells, and
a point on the bounding-box boundary (in particular a grid boundary) lies
strictly inside no cell — such a record is dropped from spatial sampling
rather than assigned to the first enclosing cell.  The final conjunct pins
the enumeration order of the source's nested loops: the cell list is exactly
the x-segments in linspace order (outer loop), each paired with every
y-segment in linspace order (inner loop). -/
theorem C3_grid_tiling (minx maxx miny maxy : ℚ) (rows cols : ℕ)
    (hx : minx ≤ maxx) (hy : miny ≤ maxy) (hr : 1 ≤ rows) (hc : 1 ≤ cols) :
    (buildGrid minx maxx miny maxy rows cols).length = rows * cols ∧
    (∀ p : ℚ × ℚ, minx ≤ p.1 → p.1 ≤ maxx → miny ≤ p.2 → p.2 ≤ maxy →
      ∃ c ∈ buildGrid minx maxx miny maxy rows cols,
        c.xs ≤ p.1 ∧ p.1 ≤ c.xe ∧ c.ys ≤ p.2 ∧ p.2 ≤ c.ye) ∧
    (∀ p : ℚ × ℚ,
      (buildGrid minx maxx miny maxy rows cols).countP
        (fun c => withinRect p c) ≤ 1) ∧
    (∀ p : ℚ × ℚ, p.1 = minx ∨ p.1 = maxx ∨ p.2 = miny ∨ p.2 = maxy →
      ∀ c ∈ buildGrid minx maxx miny maxy rows cols, withinRect p c = false) ∧
    buildGrid minx maxx miny maxy rows cols =
      (List.range cols).flatMap (fun k => (List.range rows).map (fun j =>
        (⟨(linspaceQ minx maxx (cols + 1)).getD k 0,
          (linspaceQ minx maxx (cols + 1)).getD (k + 1) 0,
          (linspaceQ miny maxy (rows + 1)).getD j 0,
          (linspaceQ miny maxy (rows + 1)).getD (j + 1) 0⟩ : Rect))) :=
  ⟨buildGrid_length minx maxx miny maxy rows cols,
   fun p h1 h2 h3 h4 => buildGrid_cover minx maxx miny maxy rows cols
     hx hy hr hc p h1 h2 h3 h4,
   fun p => buildGrid_countP_le_one minx maxx miny maxy rows cols hx hy p,
   fun p hp => buildGrid_boundary_outside hx hy p hp,
   buildGrid_enumeration minx maxx miny maxy rows cols⟩

/-- C3 witness: the tiling theorem applied to the claim's concrete box
[0,10] x [0,10] with rows = cols = 2. -/
theorem C3_grid_tiling_witness :
    ((0 : ℚ) ≤ 10) ∧ ((1 : ℕ) ≤ 2) ∧
    ((buildGrid 0 10 0 10 2 2).length = 2 * 2 ∧
    (∀ p : ℚ × ℚ, 0 ≤ p.1 → p.1 ≤ 10 → 0 ≤ p.2 → p.2 ≤ 10 →
      ∃ c ∈ buildGrid 0 10 0 10 2 2,
        c.xs ≤ p.1 ∧ p.1 ≤ c.xe ∧ c.ys ≤ p.2 ∧ p.2 ≤ c.ye) ∧
    (∀ p : ℚ × ℚ,
      (buildGrid 0 10 0 10 2 2).countP (fun c => withinRect p c) ≤ 1) ∧
    (∀ p : ℚ × ℚ, p.1 = 0 ∨ p.1 = 10 ∨ p.2 = 0 ∨ p.2 = 10 →
      ∀ c ∈ buildGrid 0 10 0 10 2 2, withinRect p c = false) ∧
    buildGrid 0 10 0 10 2 2 =
      (List.range 2).flatMap (fun k => (List.range 2).map (fun j =>
        (⟨(linspaceQ 0 10 (2 + 1)).getD k 0,
          (linspaceQ 0 10 (2 + 1)).getD (k + 1) 0,
          (linspaceQ 0 10 (2 + 1)).getD j 0,
          (linspaceQ 0 10 (2 + 1)).getD (j + 1) 0⟩ : Rect)))) :=
  ⟨by decide, by decide,
   C3_grid_tiling 0 10 0 10 2 2 (by decide) (by decide) (by decide) (by decide)⟩

/-- C4: for every non-empty value vector and bins >= 1, the quantile edge
computation returns exactly bins+1 non-decreasing edges; the first edge is
the minimum and the last the maximum of the unique-value set; edges depend
only on the unique values (duplicates do not skew edge spacing). -/
theorem C4_quantile_edges (values : List ℚ) (bins : ℕ) (hne : values ≠ [])
    (hb : 1 ≤ bins) :
    (computeBinEdges values bins).length = bins + 1 ∧
    (computeBinEdges values bins).Sorted (fun a b => a ≤ b) ∧
    (computeBinEdges values bins).head? = some ((sortedUnique values).getD 0 0) ∧
    (computeBinEdges values bins).getLast? =
      some ((sortedUnique values).getD ((sortedUnique values).length - 1) 0) ∧
    ((sortedUnique values).getD 0 0 ∈ values ∧
      ∀ x ∈ values, (sortedUnique values).getD 0 0 ≤ x) ∧
    ((sortedUnique values).getD ((sortedUnique values).length - 1) 0 ∈ values ∧
      ∀ x ∈ values,
        x ≤ (sortedUnique values).getD ((sortedUnique values).length - 1) 0) ∧
    (∀ values2 : List ℚ, sortedUnique values2 = sortedUnique values →
      computeBinEdges values2 bins = computeBinEdges values bins) :=
  ⟨computeBinEdges_length values bins,
   computeBinEdges_sorted values bins hne,
   computeBinEdges_head values bins hb,
   computeBinEdges_getLast values bins hb hne,
   sortedUnique_head_min hne,
   sortedUnique_getLast_max hne,
   fun values2 h => by unfold computeBinEdges; rw [h]⟩

/-- C4 witness: the edge theorem applied to the duplicate-laden vector
[5,5,5,1,2] with bins = 2. -/
theorem C4_quantile_edges_witness :
    ([5, 5, 5, 1, 2] : List ℚ) ≠ [] ∧ (1 : ℕ) ≤ 2 ∧
    ((computeBinEdges [5, 5, 5, 1, 2] 2).length = 2 + 1 ∧
    (computeBinEdges [5, 5, 5, 1, 2] 2).Sorted (fun a b => a ≤ b) ∧
    (computeBinEdges [5, 5, 5, 1, 2] 2).head? =
      some ((sortedUnique [5, 5, 5, 1, 2]).getD 0 0) ∧
    (computeBinEdges [5, 5, 5, 1, 2] 2).getLast? =
      some ((sortedUnique [5, 5, 5, 1, 2]).getD
        ((sortedUnique [5, 5, 5, 1, 2]).length - 1) 0) ∧
    ((sortedUnique [5, 5, 5, 1, 2]).getD 0 0 ∈ ([5, 5, 5, 1, 2] : List ℚ) ∧
      ∀ x ∈ ([5, 5, 5, 1, 2] : List ℚ),
        (sortedUnique [5, 5, 5, 1, 2]).getD 0 0 ≤ x) ∧
    ((sortedUnique [5, 5, 5, 1, 2]).getD
        ((sortedUnique [5, 5, 5, 1, 2]).length - 1) 0 ∈ ([5, 5, 5, 1, 2] : List ℚ) ∧
      ∀ x ∈ ([5, 5, 5, 1, 2] : List ℚ),
        x ≤ (sortedUnique [5, 5, 5, 1, 2]).getD
          ((sortedUnique [5, 5, 5, 1, 2]).length - 1) 0) ∧
    (∀ values2 : List ℚ, sortedUnique values2 = sortedUnique [5, 5, 5, 1, 2] →
      computeBinEdges values2 2 = computeBinEdges [5, 5, 5, 1, 2] 2)) :=
  ⟨by decide, by decide, C4_quantile_edges [5, 5, 5, 1, 2] 2 (by decide) (by decide)⟩

/-- C5 counterexample: the claim asserts every record maps to exactly one bin
and a value equal to the highest edge is included in bin bins-1.  With values
[5,5,5] (a single unique value) and bins = 2, every quantile edge equals 5;
the duplicate-edge check of `_bins_to_cuts` then raises
ValueError "Bin edges must be unique", the run aborts, and no record is
assigned to any bin — in particular the record equal to the highest edge is
not included in bin bins-1. -/
theorem C5_counterexample :
    computeBinEdges [5, 5, 5] 2 = [5, 5, 5] ∧
    binsToCutsVec (computeBinEdges [5, 5, 5] 2) [5, 5, 5] =
      .error .binEdgesNotUnique ∧
    resample_shapefile rngZero frameD "v" 2 ["v"] true none =
      .error .binEdgesNotUnique :=
  ⟨by decide, by decide, by decide⟩

/-- C5 (amended): when the dataset has at least two distinct values, the
bins+1 quantile edges are pairwise distinct, the vectorized cut succeeds and
labels every record; then every record's value is assigned to exactly one bin
id in [0, bins), a value equal to the lowest edge goes to bin 0, and a value
equal to the highest edge goes to bin bins-1.  (When all values coincide the
edges collapse and the call instead fails with the uniqueness ValueError, as
the counterexample shows.) -/
theorem C5_bin_assignment (values : List ℚ) (bins : ℕ) (hne : values ≠ [])
    (hb : 1 ≤ bins) (h2 : 2 ≤ (sortedUnique values).length) :
    binsToCutsVec (computeBinEdges values bins) values =
      .ok (values.map (binsToCuts (computeBinEdges values bins))) ∧
    (∀ x ∈ values, ∃ b,
      binsToCuts (computeBinEdges values bins) x = some b ∧ b < bins) ∧
    binsToCuts (computeBinEdges values bins) ((sortedUnique values).getD 0 0) =
      some 0 ∧
    binsToCuts (computeBinEdges values bins)
      ((sortedUnique values).getD ((sortedUnique values).length - 1) 0) =
      some (bins - 1) :=
  ⟨binsToCutsVec_distinct values bins h2 values,
   fun x hx => binsToCuts_covers hne hb hx,
   binsToCuts_lowest hne hb,
   binsToCuts_highest hne hb h2⟩

/-- C5 witness: the assignment theorem applied to values [1,2,2] (two
distinct values) with bins = 3. -/
theorem C5_bin_assignment_witness :
    ([1, 2, 2] : List ℚ) ≠ [] ∧ (1 : ℕ) ≤ 3 ∧
    2 ≤ (sortedUnique [1, 2, 2]).length ∧
    (binsToCutsVec (computeBinEdges [1, 2, 2] 3) [1, 2, 2] =
      .ok (([1, 2, 2] : List ℚ).map (binsToCuts (computeBinEdges [1, 2, 2] 3))) ∧
    (∀ x ∈ ([1, 2, 2] : List ℚ), ∃ b,
      binsToCuts (computeBinEdges [1, 2, 2] 3) x = some b ∧ b < 3) ∧
    binsToCuts (computeBinEdges [1, 2, 2] 3) ((sortedUnique [1, 2, 2]).getD 0 0) =
      some 0 ∧
    binsToCuts (computeBinEdges [1, 2, 2] 3)
      ((sortedUnique [1, 2, 2]).getD ((sortedUnique [1, 2, 2]).length - 1) 0) =
      some (3 - 1)) :=
  ⟨by decide, by decide, by decide,
   C5_bin_assignment [1, 2, 2] 3 (by decide) (by decide) (by decide)⟩

/-- C6: in value mode, every successful run's output rows are sorted by the
original record index (`final_df.sort_index()` restores original input
order before writing). -/
theorem C6_order_restoration (rng : ℕ → ℕ) (gdf : GeoFrame) (tf : String)
    (bins : ℤ) (ftk : List String) (rep : Bool) (os : Option ℕ)
    (out : RunResult)
    (h : resample_shapefile rng gdf tf bins ftk rep os = .ok out) :
    out.recs.Sorted recIdxLe :=
  (resample_value_ok_shape rng gdf tf bins ftk rep os out h).2

/-- C6 witness: the order theorem applied to a concrete successful run. -/
theorem C6_order_restoration_witness :
    resample_shapefile rngZero frameA "v" 3 ["v"] true none = .ok outA ∧
    outA.recs.Sorted recIdxLe :=
  ⟨by decide, C6_order_restoration rngZero frameA "v" 3 ["v"] true none outA
    (by decide)⟩

/-- C7 counterexample: sampling is driven by numpy's implicit global random
state, not an explicit seed parameter — two calls whose explicit arguments
are all identical but which start from different hidden random streams
return different output record-index sequences. -/
theorem C7_counterexample :
    (resample_shapefile rngZero frameA "v" 3 ["v"] true none).map
      (fun o => o.recs.map (fun r => r.idx)) = .ok [0, 1] ∧
    (resample_shapefile rngOne frameA "v" 3 ["v"] true none).map
      (fun o => o.recs.map (fun r => r.idx)) = .ok [0, 2] ∧
    ([0, 1] : List ℕ) ≠ [0, 2] :=
  ⟨by decide, by decide, by decide⟩

/-- C7 (amended): the call is deterministic in its inputs together with the
underlying random stream: two calls with identical inputs and an identical
global random state produce identical results (but the stream is implicit
process state, not an explicit seed argument of the function). -/
theorem C7_reproducibility (rng1 rng2 : ℕ → ℕ) (gdf : GeoFrame) (tf : String)
    (bins : ℤ) (ftk : List String) (rep : Bool) (os : Option ℕ)
    (h : ∀ i, rng1 i = rng2 i) :
    resample_shapefile rng1 gdf tf bins ftk rep os =
      resample_shapefile rng2 gdf tf bins ftk rep os := by
  rw [funext h]

/-- C7 witness: the determinism theorem applied to a concrete stream. -/
theorem C7_reproducibility_witness :
    (∀ i, rngZero i = rngZero i) ∧
    resample_shapefile rngZero frameA "v" 3 ["v"] true none =
      resample_shapefile rngZero frameA "v" 3 ["v"] true none :=
  ⟨fun _ => rfl,
   C7_reproducibility rngZero rngZero frameA "v" 3 ["v"] true none (fun _ => rfl)⟩

/-- C8 counterexample: there is no validation step and no InvalidInputError.
With `bins = 0` the call fails with ZeroDivisionError (at
`samples_per_bin = total_samples // bins`).  With an empty dataset the
quantile of the empty unique-value vector yields the same (NaN) edge at every
quantile, pandas `unique` keeps a single entry, and `_bins_to_cuts` raises
ValueError "Bin edges must be unique" — before `pd.concat` is ever reached;
neither failure is InvalidInputError. -/
theorem C8_counterexample :
    resample_shapefile rngZero frameA "v" 0 ["v"] true none =
      .error .zeroDivision ∧
    resample_shapefile rngZero ⟨["geometry", "v"], []⟩ "v" 2 ["v"] true none =
      .error .binEdgesNotUnique ∧
    Err.zeroDivision ≠ Err.invalidInput ∧
    Err.binEdgesNotUnique ≠ Err.invalidInput :=
  ⟨by decide, by decide, by decide, by decide⟩

/-- C8 (amended): the orchestrator performs no input validation: a zero bin
count in value mode and a zero row count in spatial mode both run into
`total // 0` and fail with ZeroDivisionError (never InvalidInputError), for
every dataset whose fields pass `filter_fields` and contain the target. -/
theorem C8_no_validation (rng : ℕ → ℕ) (gdf : GeoFrame) (tf : String)
    (ftk : List String) (rep : Bool) (os : Option ℕ) (g : GeoFrame)
    (cols : ℤ) (hfil : filter_fields ftk gdf = .ok g) (htf : tf ∈ g.cols)
    (hc : 0 ≤ cols) :
    resample_shapefile rng gdf tf 0 ftk rep os = .error .zeroDivision ∧
    resample_shapefile_spatially rng gdf 0 cols ftk rep os =
      .error .zeroDivision :=
  ⟨resample_value_zero_bins rng gdf tf ftk rep os g hfil htf,
   resample_spatial_zero_rows rng gdf cols hc ftk rep os g hfil⟩

/-- C8 witness: the no-validation theorem applied to a concrete dataset. -/
theorem C8_no_validation_witness :
    filter_fields ["v"] frameA = .ok frameA ∧ "v" ∈ frameA.cols ∧
    (0 : ℤ) ≤ 5 ∧
    (resample_shapefile rngZero frameA "v" 0 ["v"] true none =
      .error .zeroDivision ∧
    resample_shapefile_spatially rngZero frameA 0 5 ["v"] true none =
      .error .zeroDivision) :=
  ⟨by decide, by decide, by decide,
   C8_no_validation rngZero frameA "v" ["v"] true none frameA 5 (by decide)
     (by decide) (by decide)⟩

/-- C9 counterexample: the claim says every empty bin is skipped AND
logged/reported.  In value mode empty bins are silently dropped by the
groupby: on values [1,2,2] with bins = 3, quantile bin 1 contains no record,
the run succeeds (the empty bin causes no failure, the two non-empty bins
are sampled), yet the run's empty-bin log is empty — nothing reports which
bin was empty. -/
theorem C9_counterexample :
    List.countP (fun x => decide (binsToCuts (computeBinEdges [1, 2, 2] 3) x =
      some 1)) [1, 2, 2] = 0 ∧
    resample_shapefile rngZero frameA "v" 3 ["v"] true none = .ok outA ∧
    outA.emptyBins = [] :=
  ⟨by decide, by decide, by decide⟩

/-- C9 (amended): an empty bin or cell never causes a resampling call to
fail and is skipped while the remaining non-empty bins are sampled; the
spatial path logs exactly the empty cells (first conjunct: a successful
spatial run's log is precisely the list of cells containing no record;
second conjunct: with replacement the per-cell loop always succeeds,
drawing the full quota from every non-empty cell), whereas the value path
reports nothing (third conjunct: a successful value-mode run's empty-bin
log is always empty). -/
theorem C9_empty_bins :
    (∀ (rng : ℕ → ℕ) (gdf : GeoFrame) (rows cols : ℤ) (ftk : List String)
        (rep : Bool) (os : Option ℕ) (out : RunResult) (g : GeoFrame),
      filter_fields ftk gdf = .ok g →
      resample_shapefile_spatially rng gdf rows cols ftk rep os = .ok out →
      out.emptyBins = (spatialGridOf g rows cols).filter
        (fun p => (g.recs.filter (fun r => withinRect r.pt p)).isEmpty)) ∧
    (∀ (rng : ℕ → ℕ) (n : ℕ) (recs : List GeoRecord) (ps : List Rect)
        (off : ℕ), ∃ dfs lg,
      spatialLoop rng n true recs ps off = .ok (dfs, lg) ∧
        ∀ s ∈ dfs, s.length = n) ∧
    (∀ (rng : ℕ → ℕ) (gdf : GeoFrame) (tf : String) (bins : ℤ)
        (ftk : List String) (rep : Bool) (os : Option ℕ) (out : RunResult),
      resample_shapefile rng gdf tf bins ftk rep os = .ok out →
      out.emptyBins = []) :=
  ⟨fun rng gdf rows cols ftk rep os out g hfil h =>
      resample_spatial_ok_log rng gdf rows cols ftk rep os out g hfil h,
   fun rng n recs ps off => spatialLoop_replace_total rng n recs ps off,
   fun rng gdf tf bins ftk rep os out h =>
      (resample_value_ok_shape rng gdf tf bins ftk rep os out h).1⟩

/-- C9 witness: the empty-bin theorem applied to a concrete spatial run in
which two of the four grid cells are empty and are logged. -/
theorem C9_empty_bins_witness :
    filter_fields [] frameC = .ok frameC ∧
    resample_shapefile_spatially rngZero frameC 2 2 [] true none = .ok outC ∧
    outC.emptyBins = (spatialGridOf frameC 2 2).filter
      (fun p => (frameC.recs.filter (fun r => withinRect r.pt p)).isEmpty) :=
  ⟨by decide, by decide,
   C9_empty_bins.1 rngZero frameC 2 2 [] true none outC frameC (by decide)
     (by decide)⟩

/-- C10: if the target field is not among fields_to_keep (and is not the
geometry column), the value-mode call fails with KeyError when it reads
`gdf_out[target_field]`, even though the field exists in the input — field
filtering removed the column before the quantile computation; and the
geometry column is always retained by `filter_fields` regardless of
fields_to_keep. -/
theorem C10_target_field_filtered :
    (∀ (rng : ℕ → ℕ) (gdf : GeoFrame) (tf : String) (bins : ℤ)
        (ftk : List String) (rep : Bool) (os : Option ℕ) (g : GeoFrame),
      filter_fields ftk gdf = .ok g → tf ∈ gdf.cols → tf ∉ ftk →
      tf ≠ GEOMETRY →
      resample_shapefile rng gdf tf bins ftk rep os = .error (.keyError tf)) ∧
    (∀ (ftk : List String) (gdf g : GeoFrame),
      filter_fields ftk gdf = .ok g → GEOMETRY ∈ g.cols) :=
  ⟨fun rng gdf tf bins ftk rep os g hfil _ hftk hgeo =>
      resample_value_keyError rng gdf tf bins ftk rep os g hfil hgeo hftk,
   fun ftk gdf g hfil => by
      rw [filter_fields_cols hfil]
      exact List.mem_cons_self _ _⟩

/-- C10 witness: the filtering theorem applied to frameA with an empty
fields_to_keep list: the existing target field "v" is filtered away and the
call fails with KeyError "v", while the geometry column survives. -/
theorem C10_target_field_filtered_witness :
    filter_fields [] frameA = .ok frameAfilt ∧ "v" ∈ frameA.cols ∧
    "v" ∉ ([] : List String) ∧ "v" ≠ GEOMETRY ∧
    resample_shapefile rngZero frameA "v" 2 [] true none =
      .error (.keyError "v") ∧
    GEOMETRY ∈ frameAfilt.cols :=
  ⟨by decide, by decide, by decide, by decide,
   C10_target_field_filtered.1 rngZero frameA "v" 2 [] true none frameAfilt
     (by decide) (by decide) (by decide) (by decide),
   C10_target_field_filtered.2 [] frameA frameAfilt (by decide)⟩
